import Mathlib

/-!
# herbstluftwm object tree: typed attributes and the generic attribute commands

A shallow embedding of `src/attribute_.h` (the template `Attribute_<T>` with its
five specialisations) and of `src/root.cpp` (the lifecycle of the singleton, the
commands `ls`, `get_attr`, `attr` and `object_tree`, and the helper
`Root::getAttribute`).

Conventions of the embedding

* `std::string` is `String`; an `Output` stream is the text a call appends to it.
* A C++ call either returns or propagates an exception: `Outcome`.
* A member function that mutates `*this` returns the new state next to its result
  (`Run`, `ARun`, `CmdRun`).
* A validator (`ValueValidator`) is a closure over the owning object.  While one
  external write runs, the only state that changes is the payload of the written
  attribute, so a validator is embedded as a function of that (speculative)
  payload; it is assumed to return and not to write.
* Code of the repository that is not part of the two files (`Path`, `Object`,
  `Color`, the status codes) is either a parameter or carries a doc comment that
  starts with "Modelled from the spec:".
-/

namespace herbstluft

/-! ## Standard library: exceptions, `std::stoi`, `std::stoul`, `std::to_string` -/

/-- Exceptions of the C++ standard library that the embedded code can raise. -/
inductive Exn where
  | invalid_argument
  | out_of_range
  | bad_function_call
  | logic_error (what : String)
  deriving DecidableEq, Repr

/-- How a C++ call completes: it returns a value or an exception propagates. -/
inductive Outcome (α : Type) where
  | returned (a : α)
  | thrown (e : Exn)
  deriving DecidableEq, Repr

/-- The largest `int` (32 bit). -/
def INT_MAX : Int := 2147483647

/-- The smallest `int` (32 bit). -/
def INT_MIN : Int := -2147483648

/-- The largest `unsigned long` (LP64: 64 bit). -/
def ULONG_MAX : Nat := 18446744073709551615

/-- The white space `strtol` skips: space, `\t`, `\n`, `\v`, `\f`, `\r`. -/
def isspace (c : Char) : Bool :=
  c.toNat = 32 || (9 ≤ c.toNat && c.toNat ≤ 13)

/-- The decimal digits `0` .. `9`. -/
def isdigit (c : Char) : Bool :=
  48 ≤ c.toNat && c.toNat ≤ 57

/-- Value of a run of decimal digits, most significant first. -/
def digitsValue (ds : List Char) : Nat :=
  ds.foldl (fun acc c => acc * 10 + (c.toNat - 48)) 0

/-- The subject sequence `strtol`/`strtoul` (base 10) recognise: leading white
space is skipped, then an optional sign, then the longest run of digits.  The
result is the sign and the digits; whatever follows the digits is ignored. -/
def scanNumber (s : String) : Bool × List Char :=
  match s.toList.dropWhile isspace with
  | '-' :: rest => (true, rest.takeWhile isdigit)
  | '+' :: rest => (false, rest.takeWhile isdigit)
  | rest => (false, rest.takeWhile isdigit)

/-- The conversion `std::stoi(str)` (base 10, position ignored): `invalid_argument` when no
conversion can be performed, `out_of_range` when the value does not fit an
`int`. -/
def stoi (s : String) : Outcome Int :=
  match scanNumber s with
  | (_, []) => .thrown .invalid_argument
  | (negative, ds) =>
    let v : Int := if negative then - (digitsValue ds : Int) else (digitsValue ds : Int)
    if v < INT_MIN ∨ INT_MAX < v then .thrown .out_of_range else .returned v

/-- The conversion `std::stoul(str)` (base 10, position ignored).  As `strtoul` does, a
leading minus sign negates the value in the type `unsigned long`, that is
modulo `ULONG_MAX + 1`; only a magnitude above `ULONG_MAX` is out of range. -/
def stoul (s : String) : Outcome Nat :=
  match scanNumber s with
  | (_, []) => .thrown .invalid_argument
  | (negative, ds) =>
    let n := digitsValue ds
    if ULONG_MAX < n then .thrown .out_of_range
    else .returned (if negative then (ULONG_MAX + 1 - n) % (ULONG_MAX + 1) else n)

/-- Decimal digits of `n`, most significant first, in front of `acc`; `fuel`
bounds the number of digits. -/
def decimalDigits : Nat → Nat → List Char → List Char
  | 0, _, acc => acc
  | fuel + 1, n, acc =>
    if n < 10 then Char.ofNat (48 + n) :: acc
    else decimalDigits fuel (n / 10) (Char.ofNat (48 + n % 10) :: acc)

/-- The rendering `std::to_string` of an unsigned value. -/
def to_string_ulong (n : Nat) : String :=
  String.mk (decimalDigits (n + 1) n [])

/-- The rendering `std::to_string` of a signed value. -/
def to_string_int (v : Int) : String :=
  if v < 0 then String.mk ('-' :: decimalDigits (v.natAbs + 1) v.natAbs [])
  else to_string_ulong v.natAbs

/-! ## `Attribute_<T>` -/

/-- The hook events an owner is notified of.  Only the member this code uses is
listed. -/
inductive HookEvent where
  | ATTRIBUTE_CHANGED
  deriving DecidableEq, Repr

/-- The class `Attribute_<T>` together with the fields of its base `Attribute`
that it reads: `name_`, `writeable_` (read through `writeable()`) and `owner_`
(here only whether the back reference is set).  `m_onChange` is `none` for an
empty `std::function`. -/
structure Attribute_ (T : Type) where
  name_ : String
  writeable_ : Bool
  owner_ : Bool
  m_onChange : Option (T → String)
  payload_ : T

/-- What a member function of `Attribute_<T>` did: its result, the attribute
afterwards, the payloads the validator saw (one entry per invocation) and the
notifications delivered to the owner, oldest first. -/
structure Run (T : Type) where
  result : Outcome String
  self : Attribute_ T
  validated : List T
  hooks : List (HookEvent × String)

namespace Attribute_

variable {T : Type}

/-- The read-only constructor `Attribute_(name, payload)`. -/
def readOnly (name : String) (payload : T) : Attribute_ T :=
  { name_ := name, writeable_ := false, owner_ := false, m_onChange := none,
    payload_ := payload }

/-- The constructor `Attribute_(name, onChange, payload)`. -/
def writable (name : String) (onChange : Option (T → String)) (payload : T) :
    Attribute_ T :=
  { name_ := name, writeable_ := true, owner_ := false, m_onChange := onChange,
    payload_ := payload }

/-- The base class method `Attribute::setOwner`. -/
def setOwner (a : Attribute_ T) : Attribute_ T :=
  { a with owner_ := true }

/-- The private `notifyHooks()`: one call of the owner, if there is an owner. -/
def notifyHooks (a : Attribute_ T) : List (HookEvent × String) :=
  if a.owner_ then [(HookEvent.ATTRIBUTE_CHANGED, a.name_)] else []

/-- The method `assignByUser(payload)`. -/
def assignByUser (a : Attribute_ T) (payload : T) : Run T :=
  let old_payload := a.payload_
  let a1 := { a with payload_ := payload }
  -- this->writeable() ? (m_onChange)() : ""
  let call : Outcome String × List T :=
    if a1.writeable_ then
      match a1.m_onChange with
      | some onChange => (.returned (onChange a1.payload_), [a1.payload_])
      | none => (.thrown .bad_function_call, [])
    else (.returned "", [])
  match call with
  | (.thrown e, seen) => { result := .thrown e, self := a1, validated := seen, hooks := [] }
  | (.returned error_message, seen) =>
    if error_message = "" then
      -- no error -> keep value
      { result := .returned "", self := a1, validated := seen, hooks := a1.notifyHooks }
    else
      -- error -> restore value
      { result := .returned error_message, self := { a1 with payload_ := old_payload },
        validated := seen, hooks := [] }

/-- The generic `str()`, instantiated for `int`. -/
def str_int (a : Attribute_ Int) : String := to_string_int a.payload_

/-- The generic `str()`, instantiated for `unsigned long`. -/
def str_ulong (a : Attribute_ Nat) : String := to_string_ulong a.payload_

/-- The specialisation `Attribute_<bool>::str`. -/
def str_bool (a : Attribute_ Bool) : String :=
  if a.payload_ then "true" else "false"

/-- The specialisation `Attribute_<std::string>::str`. -/
def str_string (a : Attribute_ String) : String := a.payload_

/-- The specialisation `Attribute_<int>::change`: the argument `std::stoi(payload)` is
evaluated first, and its exception leaves before `assignByUser` is entered. -/
def change_int (a : Attribute_ Int) (payload : String) : Run Int :=
  match stoi payload with
  | .thrown e => { result := .thrown e, self := a, validated := [], hooks := [] }
  | .returned v => a.assignByUser v

/-- The specialisation `Attribute_<unsigned long>::change`. -/
def change_ulong (a : Attribute_ Nat) (payload : String) : Run Nat :=
  match stoul payload with
  | .thrown e => { result := .thrown e, self := a, validated := [], hooks := [] }
  | .returned v => a.assignByUser v

/-- The specialisation `Attribute_<bool>::change`. -/
def change_bool (a : Attribute_ Bool) (payload : String) : Run Bool :=
  let new_data := a.payload_
  if payload = "off" ∨ payload = "false" then a.assignByUser false
  else if payload = "on" ∨ payload = "true" then a.assignByUser true
  else if payload = "toggle" then a.assignByUser (!new_data)
  else { result := .returned "only on/off/true/false/toggle are valid booleans",
         self := a, validated := [], hooks := [] }

/-- The specialisation `Attribute_<std::string>::change`. -/
def change_string (a : Attribute_ String) (payload : String) : Run String :=
  a.assignByUser payload

end Attribute_

/-- The two members of `Color` (x11-types.h) the attribute code calls, taken as
parameters: `Color::fromStr`, which may return a colour or raise, and
`Color::str`. -/
structure ColorGrammar (Color : Type) where
  fromStr : String → Outcome Color
  str : Color → String

/-- The specialisation `Attribute_<Color>::str`. -/
def Attribute_.str_color {Color : Type} (cg : ColorGrammar Color) (a : Attribute_ Color) :
    String := cg.str a.payload_

/-- The specialisation `Attribute_<Color>::change`. -/
def Attribute_.change_color {Color : Type} (cg : ColorGrammar Color) (a : Attribute_ Color)
    (payload : String) : Run Color :=
  match cg.fromStr payload with
  | .thrown e => { result := .thrown e, self := a, validated := [], hooks := [] }
  | .returned v => a.assignByUser v

/-! ## The type-erased interface `Attribute` -/

/-- An attribute behind the interface `Attribute`: one of the five instances of
`Attribute_<T>`, tagged with the value its `type()` returns. -/
inductive Attribute (Color : Type) where
  | ATTRIBUTE_INT (a : Attribute_ Int)
  | ATTRIBUTE_ULONG (a : Attribute_ Nat)
  | ATTRIBUTE_BOOL (a : Attribute_ Bool)
  | ATTRIBUTE_STRING (a : Attribute_ String)
  | ATTRIBUTE_COLOR (a : Attribute_ Color)

/-- What a virtual call on an `Attribute` did; as `Run`, with the number of
validator invocations in place of the payloads it saw. -/
structure ARun (Color : Type) where
  result : Outcome String
  self : Attribute Color
  validatorCalls : Nat
  hooks : List (HookEvent × String)

/-- View a typed run through the interface. -/
def Run.erase {T Color : Type} (wrap : Attribute_ T → Attribute Color) (r : Run T) :
    ARun Color :=
  { result := r.result, self := wrap r.self, validatorCalls := r.validated.length,
    hooks := r.hooks }

namespace Attribute

variable {Color : Type}

/-- The base class accessor `name()`. -/
def name : Attribute Color → String
  | ATTRIBUTE_INT a => a.name_
  | ATTRIBUTE_ULONG a => a.name_
  | ATTRIBUTE_BOOL a => a.name_
  | ATTRIBUTE_STRING a => a.name_
  | ATTRIBUTE_COLOR a => a.name_

/-- The base class accessor `writeable()`. -/
def writeable : Attribute Color → Bool
  | ATTRIBUTE_INT a => a.writeable_
  | ATTRIBUTE_ULONG a => a.writeable_
  | ATTRIBUTE_BOOL a => a.writeable_
  | ATTRIBUTE_STRING a => a.writeable_
  | ATTRIBUTE_COLOR a => a.writeable_

/-- Whether the back reference `owner_` is set. -/
def hasOwner : Attribute Color → Bool
  | ATTRIBUTE_INT a => a.owner_
  | ATTRIBUTE_ULONG a => a.owner_
  | ATTRIBUTE_BOOL a => a.owner_
  | ATTRIBUTE_STRING a => a.owner_
  | ATTRIBUTE_COLOR a => a.owner_

/-- The virtual `str()`. -/
def str (cg : ColorGrammar Color) : Attribute Color → String
  | ATTRIBUTE_INT a => a.str_int
  | ATTRIBUTE_ULONG a => a.str_ulong
  | ATTRIBUTE_BOOL a => a.str_bool
  | ATTRIBUTE_STRING a => a.str_string
  | ATTRIBUTE_COLOR a => a.str_color cg

/-- The virtual `change(payload)`. -/
def change (cg : ColorGrammar Color) : Attribute Color → String → ARun Color
  | ATTRIBUTE_INT a, payload => (a.change_int payload).erase ATTRIBUTE_INT
  | ATTRIBUTE_ULONG a, payload => (a.change_ulong payload).erase ATTRIBUTE_ULONG
  | ATTRIBUTE_BOOL a, payload => (a.change_bool payload).erase ATTRIBUTE_BOOL
  | ATTRIBUTE_STRING a, payload => (a.change_string payload).erase ATTRIBUTE_STRING
  | ATTRIBUTE_COLOR a, payload => (a.change_color cg payload).erase ATTRIBUTE_COLOR

end Attribute

/-! ## Paths and the object tree -/

/-- First entry of a name-keyed table with the given name. -/
def assocGet {β : Type} (name : String) : List (String × β) → Option β
  | [] => none
  | (k, v) :: rest => if k = name then some v else assocGet name rest

/-- Replace the value of the first entry with the given name. -/
def assocSet {β : Type} (name : String) (v : β) : List (String × β) → List (String × β)
  | [] => []
  | (k, w) :: rest => if k = name then (k, v) :: rest else (k, w) :: assocSet name v rest

namespace Path

/-- The pieces of a text between separators: one more piece than there are
separators, so the empty text has the single piece `[]`. -/
def pieces (delim : Char) : List Char → List (List Char)
  | [] => [[]]
  | c :: cs =>
    if c = delim then [] :: pieces delim cs
    else
      match pieces delim cs with
      | [] => [[c]]
      | w :: ws => (c :: w) :: ws

/-- Modelled from the spec: `Path::split` (path.h is not among the sources).  Splits on the
separator `.`; the trailing empty names are discarded down to the last
non-empty one, inner empty names are kept. -/
def split (s : String) : List String :=
  ((pieces '.' s.toList).map String.mk).rdropWhile (fun name => name = "")

/-- Modelled from the spec: `Path::join` (path.h is not among the sources), the inverse of
`split`: the names with the separator between them. -/
def join (components : List String) (sep : Char) : String :=
  String.intercalate (String.singleton sep) components

/-- Modelled from the spec: the components of `Path(s)`, read with `toVector()` (path.h is
not among the sources): the text parsed as `split` does. -/
def toVector (s : String) : List String := split s

end Path

/-- Modelled from the spec: the class `Object` (object.h is not among the sources): a mapping
from child name to owned child and a mapping from attribute name to attribute.
Both are name-keyed tables read at the first entry of a name; nodes are not
shared between parents. -/
inductive Object (Color : Type) where
  | mk (children_ : List (String × Object Color))
       (attribs_ : List (String × Attribute Color))

namespace Object

variable {Color : Type}

/-- The child table of a node. -/
def children_ : Object Color → List (String × Object Color)
  | mk cs _ => cs

/-- The attribute table of a node. -/
def attribs_ : Object Color → List (String × Attribute Color)
  | mk _ as => as

/-- Modelled from the spec: `Object::child(path)` (object.h is not among the sources):
repeated one-level child lookup starting at this node; nothing if a name is
absent; the empty path resolves to this node. -/
def child : Object Color → List String → Option (Object Color)
  | o, [] => some o
  | o, name :: rest =>
    match assocGet name o.children_ with
    | none => none
    | some c => child c rest

/-- Modelled from the spec: `Object::attribute(name)` (object.h is not among the sources):
one attribute by exact name in this node (named `lookupAttribute` here, `attribute`
being reserved). -/
def lookupAttribute (o : Object Color) (name : String) : Option (Attribute Color) :=
  assocGet name o.attribs_

/-- Modelled from the spec: `Object::splitPath` (object.h is not among the sources): the last
component is the attribute name, the remainder is the object path.  A path
without components gives the empty object path and the empty name. -/
def splitPath (path : String) : List String × String :=
  let vec := Path.split path
  (vec.dropLast, vec.getLastD "")

/-- Apply `f` to the node a path resolves to, in place; a path that does not
resolve leaves the tree as it is. -/
def modifyAt (f : Object Color → Object Color) : Object Color → List String → Object Color
  | o, [] => f o
  | o, name :: rest =>
    match assocGet name o.children_ with
    | none => o
    | some c => mk (assocSet name (modifyAt f c rest) o.children_) o.attribs_

/-- Modelled from the spec: `Object::addChild(child, name)` (object.h is not among the
sources): registers the child under the name; a name already present is given
the new child. -/
def addChild (o : Object Color) (child : Object Color) (name : String) : Object Color :=
  match assocGet name o.children_ with
  | some _ => mk (assocSet name child o.children_) o.attribs_
  | none => mk (o.children_ ++ [(name, child)]) o.attribs_

end Object

/-- An `Attribute*` into the tree: the node that owns the attribute, as a path
from the root, and the name the attribute is registered under. -/
structure AttrRef where
  objectPath : List String
  name : String
  deriving DecidableEq, Repr

/-- The attribute an `Attribute*` points to. -/
def Object.deref {Color : Type} (root : Object Color) (r : AttrRef) :
    Option (Attribute Color) :=
  match root.child r.objectPath with
  | none => none
  | some o => o.lookupAttribute r.name

/-- Write through an `Attribute*`: the pointee becomes `a`. -/
def Object.store {Color : Type} (root : Object Color) (r : AttrRef) (a : Attribute Color) :
    Object Color :=
  root.modifyAt (fun o => Object.mk o.children_ (assocSet r.name a o.attribs_)) r.objectPath

/-! ## `root.cpp`: the commands -/

/-- What the commands use from outside the two source files, taken as
parameters: the colour grammar, the text `Object::ls(output)` writes for a node,
and the two status codes of ipc-protocol.h; further the text
`Object::ls(path, output)` writes when called on a node with a path, the text
`Object::printTree(output, label)` writes for a node and a label, and the two
objects the constructor of `Root` attaches (`HookManager`, `ClientManager`). -/
structure Host (Color : Type) where
  color : ColorGrammar Color
  ls : Object Color → String
  HERBST_INVALID_ARGUMENT : Int
  HERBST_NEED_MORE_ARGS : Int
  lsPath : Object Color → List String → String
  printTree : Object Color → String → String
  hookManager : Object Color
  clientManager : Object Color

/-- How a command completes: it returns a status, an exception leaves it, or it
ran into undefined behaviour. -/
inductive Completion where
  | returned (status : Int)
  | thrown (e : Exn)
  | undefined
  deriving DecidableEq, Repr

/-- What a command did: how it completed, the text it wrote to its output, the
tree afterwards and the notifications delivered on the way. -/
structure CmdRun (Color : Type) where
  completion : Completion
  output : String
  root : Object Color
  hooks : List (HookEvent × String)

namespace Root

variable {Color : Type}

/-- The loop `while (p.back().empty()) p.pop_back();` of `cmd_attr`, on the
reversed vector: `none` when `back()` is taken of an empty vector. -/
def popEmptyBack : List String → Option (List String)
  | [] => none
  | last :: before => if last = "" then popEmptyBack before else some (last :: before)

/-- The loop `while (p.back().empty()) p.pop_back();` of `cmd_attr`. -/
def dropTrailingEmpty (p : List String) : Option (List String) :=
  (popEmptyBack p.reverse).map List.reverse

/-- The method `Root::getAttribute(path, output)`: the pointer it returns, with its
pointee, and the text it wrote. -/
def getAttribute (root : Object Color) (path : String) :
    Option (AttrRef × Attribute Color) × String :=
  let attr_path := Object.splitPath path
  match root.child attr_path.1 with
  | none => (none, "No such object " ++ Path.join attr_path.1 '.' ++ "\n")
  | some child =>
    match child.lookupAttribute attr_path.2 with
    | none =>
      (none, "Object " ++ Path.join attr_path.1 '.' ++ " has no attribute \"" ++ attr_path.2
        ++ "\"" ++ "\n")
    | some a => (some ({ objectPath := attr_path.1, name := attr_path.2 }, a), "")

/-- The command `Root::cmd_get_attr`; `shift()` drops the first argument. -/
def cmd_get_attr (h : Host Color) (root : Object Color) (input : List String) :
    CmdRun Color :=
  match input.tail with
  | [] => { completion := .returned h.HERBST_NEED_MORE_ARGS, output := "", root := root,
            hooks := [] }
  | front :: _ =>
    match getAttribute root front with
    | (none, output) =>
      { completion := .returned h.HERBST_INVALID_ARGUMENT, output := output, root := root,
        hooks := [] }
    | (some (_, a), output) =>
      { completion := .returned 0, output := output ++ a.str h.color, root := root,
        hooks := [] }

/-- The command `Root::cmd_attr`. -/
def cmd_attr (h : Host Color) (root : Object Color) (input : List String) : CmdRun Color :=
  let in1 := input.tail
  let path := match in1 with
    | [] => ""
    | front :: _ => front
  let in2 := in1.tail
  let p := Path.split path
  -- if (!p.empty()) { while (p.back().empty()) p.pop_back(); o = o->child(p); }
  let o : Option (Option (Object Color)) :=
    if p.isEmpty then some (some root) else (dropTrailingEmpty p).map root.child
  match o, in2 with
  | none, _ => { completion := .undefined, output := "", root := root, hooks := [] }
  | some (some obj), [] =>
    { completion := .returned 0, output := h.ls obj, root := root, hooks := [] }
  | some _, _ =>
    match getAttribute root path with
    | (none, output) =>
      { completion := .returned h.HERBST_INVALID_ARGUMENT, output := output, root := root,
        hooks := [] }
    | (some (a, pointee), output) =>
      match in2 with
      | [] =>
        -- no more arguments -> return the value
        { completion := .returned 0, output := output ++ pointee.str h.color, root := root,
          hooks := [] }
      | front :: _ =>
        -- another argument -> set the value
        let run := pointee.change h.color front
        let root1 := root.store a run.self
        match run.result with
        | .thrown e =>
          { completion := .thrown e, output := output, root := root1, hooks := run.hooks }
        | .returned error_message =>
          if error_message = "" then
            { completion := .returned 0, output := output, root := root1, hooks := run.hooks }
          else
            { completion := .returned h.HERBST_INVALID_ARGUMENT,
              output := output ++ error_message ++ "\n", root := root1, hooks := run.hooks }

/-- The command `Root::cmd_ls`; `Path p(in.front())` is the split argument. -/
def cmd_ls (h : Host Color) (root : Object Color) (input : List String) : CmdRun Color :=
  match input.tail with
  | [] => { completion := .returned 0, output := h.ls root, root := root, hooks := [] }
  | front :: _ =>
    { completion := .returned 0, output := h.lsPath root (Path.toVector front), root := root,
      hooks := [] }

/-- The constructor `Root::Root()` (named `construct` here): the two fixed children
are attached to a node without children and attributes. -/
def construct (h : Host Color) : Object Color :=
  ((Object.mk [] []).addChild h.hookManager "hooks").addChild h.clientManager "clients"

/-- The static `Root::create()` on the singleton `root_`: what it returns or raises,
and `root_` afterwards. -/
def create (h : Host Color) (root_ : Option (Object Color)) :
    Outcome (Object Color) × Option (Object Color) :=
  match root_ with
  | some existing => (.thrown (.logic_error "Redundant root node creation!"), some existing)
  | none => (.returned (construct h), some (construct h))

/-- The static `Root::destroy()` on the singleton `root_`: `root_` afterwards, or `none`
when `root_->children_` dereferences the null pointer. -/
def destroy (root_ : Option (Object Color)) : Option (Option (Object Color)) :=
  match root_ with
  | none => none
  | some _ => some none

/-- The static `Root::clients()`: the child `clients` of the singleton. -/
def clients (root : Object Color) : Option (Object Color) :=
  root.child ["clients"]

end Root

/-- The loop `while (!path.empty() && path.back() == "") path.pop_back();` of
`print_object_tree_command`, on the reversed vector. -/
def popEmptyBackGuarded : List String → List String
  | [] => []
  | last :: before => if last = "" then popEmptyBackGuarded before else last :: before

/-- The loop `while (!path.empty() && path.back() == "") path.pop_back();` of
`print_object_tree_command`. -/
def trimTrailingEmpty (path : List String) : List String :=
  (popEmptyBackGuarded path.reverse).reverse

/-- The command `print_object_tree_command` (`object_tree`), with the components
`Path(text).toVector()` of a text (path.h is not among the sources) as the
parameter `toVector`. -/
def print_object_tree_command_on {Color : Type} (toVector : String → List String)
    (h : Host Color) (root : Object Color) (input : List String) : CmdRun Color :=
  let in1 := input.tail
  let path := trimTrailingEmpty (toVector (match in1 with
    | [] => ""
    | front :: _ => front))
  match root.child path with
  | none =>
    { completion := .returned h.HERBST_INVALID_ARGUMENT,
      output := "No such object " ++ Path.join path '.' ++ "\n", root := root, hooks := [] }
  | some child =>
    { completion := .returned 0, output := h.printTree child (Path.join path '.'),
      root := root, hooks := [] }

/-- The command `print_object_tree_command` (`object_tree`) with the components of a
path as the spec describes them. -/
def print_object_tree_command {Color : Type} (h : Host Color) (root : Object Color)
    (input : List String) : CmdRun Color :=
  print_object_tree_command_on Path.toVector h root input

/-- A text that, after optional white space, starts with a decimal numeral with
optional sign: `negative` tells whether the sign is a minus, `ds` are the
digits of the numeral, which end where the text ends or goes on with something
that is not a digit. -/
def StartsWithNumeral (text : String) (negative : Bool) (ds : List Char) : Prop :=
  ∃ ws sign rest : List Char,
    text.toList = ws ++ (sign ++ (ds ++ rest)) ∧
    (∀ c ∈ ws, isspace c = true) ∧
    ((sign = [] ∧ negative = false) ∨ (sign = ['+'] ∧ negative = false) ∨
      (sign = ['-'] ∧ negative = true)) ∧
    ds ≠ [] ∧
    (∀ c ∈ ds, isdigit c = true) ∧
    (∀ c, rest.head? = some c → isdigit c = false)

/-- The value of a numeral with sign as an integer. -/
def signedValue (negative : Bool) (ds : List Char) : Int :=
  if negative then - (digitsValue ds : Int) else (digitsValue ds : Int)

/-- The value of a numeral with sign in the type `unsigned long`: a minus sign
negates modulo `ULONG_MAX + 1`. -/
def wrappedValue (negative : Bool) (ds : List Char) : Nat :=
  if negative then (ULONG_MAX + 1 - digitsValue ds) % (ULONG_MAX + 1) else digitsValue ds

/-! ## Sample data -/

namespace Sample

/-- A colour grammar with one colour, which every text denotes. -/
def color : ColorGrammar Unit :=
  { fromStr := fun _ => .returned (), str := fun _ => "black" }

/-- The plain split of a text at the separator `.`, which keeps every empty name. -/
def plainSplit (s : String) : List String :=
  (Path.pieces '.' s.toList).map String.mk

/-- The names of the children of a node, separated by blanks. -/
def childNames (o : Object Unit) : String :=
  String.intercalate " " (o.children_.map Prod.fst)

/-- A host whose listing of a node is the names of its children, with status
codes 3 and 9.  Listing at a path reports a path that does not resolve;
printing a tree writes the label and the names of the children; the two
managers are nodes without children and attributes. -/
def host : Host Unit :=
  { color := color
    ls := childNames
    HERBST_INVALID_ARGUMENT := 3
    HERBST_NEED_MORE_ARGS := 9
    lsPath := fun o path =>
      match o.child path with
      | none => "No such object " ++ Path.join path '.' ++ "\n"
      | some node => childNames node
    printTree := fun o label => label ++ ": " ++ childNames o
    hookManager := .mk [] []
    clientManager := .mk [] [] }

/-- A validator that accepts every value. -/
def anything {T : Type} (_ : T) : String := ""

/-- A validator for names: the empty name is rejected. -/
def nonEmpty (name : String) : String :=
  if name = "" then "the name must not be empty" else ""

/-- The writable string attribute `tags` of the root, holding `1,2,3`. -/
def tags : Attribute_ String :=
  (Attribute_.writable "tags" (some nonEmpty) "1,2,3").setOwner

/-- A writable integer attribute `border` holding 5. -/
def border : Attribute_ Int :=
  (Attribute_.writable "border" (some anything) 5).setOwner

/-- A writable boolean attribute `floating` holding false. -/
def floating : Attribute_ Bool :=
  (Attribute_.writable "floating" (some anything) false).setOwner

/-- A read-only string attribute `version` holding `0.7`. -/
def version : Attribute_ String :=
  (Attribute_.readOnly "version" "0.7").setOwner

/-- A writable unsigned attribute `count` holding 7. -/
def count : Attribute_ Nat :=
  (Attribute_.writable "count" (some anything) 7).setOwner

/-- A writable string attribute named `clients`, as the child is, holding `none`. -/
def clientsText : Attribute_ String :=
  (Attribute_.writable "clients" (some anything) "none").setOwner

/-- The attribute `tags` behind the interface. -/
def tagsAttribute : Attribute Unit := .ATTRIBUTE_STRING tags

/-- The attribute `border` behind the interface. -/
def borderAttribute : Attribute Unit := .ATTRIBUTE_INT border

/-- A root with the children `hooks` and `clients`, neither with attributes of
its own, and the root attributes `tags`, `border`, `floating` and `version`. -/
def tree : Object Unit :=
  .mk [("hooks", .mk [] []), ("clients", .mk [] [])]
    [("tags", tagsAttribute), ("border", borderAttribute),
     ("floating", .ATTRIBUTE_BOOL floating), ("version", .ATTRIBUTE_STRING version)]

/-- The sample root with one more attribute, named `clients` as one of its
children is. -/
def shadowed : Object Unit :=
  .mk [("hooks", .mk [] []), ("clients", .mk [("focus", .mk [] [])] [])]
    [("tags", tagsAttribute), ("clients", .ATTRIBUTE_STRING clientsText)]

end Sample

/-! ## External assignment -/

namespace Attribute_

variable {T : Type}

/-- External assignment to an attribute that is not writable: the validator is
not consulted, the new payload stays and the owner is notified. -/
theorem assignByUser_readOnly (a : Attribute_ T) (v : T) (hw : a.writeable_ = false) :
    a.assignByUser v =
      { result := .returned "", self := { a with payload_ := v }, validated := [],
        hooks := notifyHooks { a with payload_ := v } } := by
  simp [assignByUser, hw]

/-- External assignment to a writable attribute with a validator. -/
theorem assignByUser_writable (a : Attribute_ T) (v : T) (f : T → String)
    (hw : a.writeable_ = true) (hf : a.m_onChange = some f) :
    a.assignByUser v =
      if f v = "" then
        { result := .returned "", self := { a with payload_ := v }, validated := [v],
          hooks := notifyHooks { a with payload_ := v } }
      else { result := .returned (f v), self := a, validated := [v], hooks := [] } := by
  cases a
  simp only at hw hf
  subst hw hf
  simp [assignByUser]

/-- Shape of every external assignment that returns: either the empty message,
the new payload and the notification, or a message, the old attribute and no
notification. -/
theorem assignByUser_returned (a : Attribute_ T) (v : T) (msg : String)
    (h : (a.assignByUser v).result = .returned msg) :
    (msg = "" ∧ (a.assignByUser v).self = { a with payload_ := v } ∧
        (a.assignByUser v).hooks = a.notifyHooks) ∨
    (msg ≠ "" ∧ (a.assignByUser v).self = a ∧ (a.assignByUser v).hooks = []) := by
  obtain ⟨n, w, o, m, p⟩ := a
  cases w with
  | false =>
    simp [assignByUser] at h ⊢
    simp [← h, notifyHooks]
  | true =>
    cases m with
    | none => simp [assignByUser] at h
    | some f =>
      by_cases hacc : f v = ""
      · simp [assignByUser, hacc] at h ⊢
        simp [← h, notifyHooks]
      · simp [assignByUser, hacc] at h ⊢
        simp [← h, hacc]

/-- Shape of a returning `change` on an integer attribute. -/
theorem change_int_returned (a : Attribute_ Int) (text msg : String)
    (h : (a.change_int text).result = .returned msg) :
    (msg = "" ∧ (a.change_int text).hooks = a.notifyHooks) ∨
    (msg ≠ "" ∧ (a.change_int text).self = a ∧ (a.change_int text).hooks = []) := by
  unfold change_int at h ⊢
  cases hp : stoi text with
  | thrown e => simp [hp] at h
  | returned v =>
    simp only [hp] at h ⊢
    rcases assignByUser_returned a v msg h with ⟨h1, _, h3⟩ | ⟨h1, h2, h3⟩
    · exact Or.inl ⟨h1, h3⟩
    · exact Or.inr ⟨h1, h2, h3⟩

/-- Shape of a returning `change` on an unsigned attribute. -/
theorem change_ulong_returned (a : Attribute_ Nat) (text msg : String)
    (h : (a.change_ulong text).result = .returned msg) :
    (msg = "" ∧ (a.change_ulong text).hooks = a.notifyHooks) ∨
    (msg ≠ "" ∧ (a.change_ulong text).self = a ∧ (a.change_ulong text).hooks = []) := by
  unfold change_ulong at h ⊢
  cases hp : stoul text with
  | thrown e => simp [hp] at h
  | returned v =>
    simp only [hp] at h ⊢
    rcases assignByUser_returned a v msg h with ⟨h1, _, h3⟩ | ⟨h1, h2, h3⟩
    · exact Or.inl ⟨h1, h3⟩
    · exact Or.inr ⟨h1, h2, h3⟩

/-- Shape of a returning `change` on a boolean attribute. -/
theorem change_bool_returned (a : Attribute_ Bool) (text msg : String)
    (h : (a.change_bool text).result = .returned msg) :
    (msg = "" ∧ (a.change_bool text).hooks = a.notifyHooks) ∨
    (msg ≠ "" ∧ (a.change_bool text).self = a ∧ (a.change_bool text).hooks = []) := by
  unfold change_bool at h ⊢
  simp only at h ⊢
  split_ifs at h ⊢
  · rcases assignByUser_returned a _ msg h with ⟨h1, _, h3⟩ | ⟨h1, h2, h3⟩
    · exact Or.inl ⟨h1, h3⟩
    · exact Or.inr ⟨h1, h2, h3⟩
  · rcases assignByUser_returned a _ msg h with ⟨h1, _, h3⟩ | ⟨h1, h2, h3⟩
    · exact Or.inl ⟨h1, h3⟩
    · exact Or.inr ⟨h1, h2, h3⟩
  · rcases assignByUser_returned a _ msg h with ⟨h1, _, h3⟩ | ⟨h1, h2, h3⟩
    · exact Or.inl ⟨h1, h3⟩
    · exact Or.inr ⟨h1, h2, h3⟩
  · simp only [Outcome.returned.injEq] at h
    refine Or.inr ⟨?_, rfl, rfl⟩
    rw [← h]; decide

/-- Shape of a returning `change` on a string attribute. -/
theorem change_string_returned (a : Attribute_ String) (text msg : String)
    (h : (a.change_string text).result = .returned msg) :
    (msg = "" ∧ (a.change_string text).hooks = a.notifyHooks) ∨
    (msg ≠ "" ∧ (a.change_string text).self = a ∧ (a.change_string text).hooks = []) := by
  unfold change_string at h ⊢
  rcases assignByUser_returned a text msg h with ⟨h1, _, h3⟩ | ⟨h1, h2, h3⟩
  · exact Or.inl ⟨h1, h3⟩
  · exact Or.inr ⟨h1, h2, h3⟩

/-- Shape of a returning `change` on a colour attribute. -/
theorem change_color_returned {Color : Type} (cg : ColorGrammar Color) (a : Attribute_ Color)
    (text msg : String) (h : (a.change_color cg text).result = .returned msg) :
    (msg = "" ∧ (a.change_color cg text).hooks = a.notifyHooks) ∨
    (msg ≠ "" ∧ (a.change_color cg text).self = a ∧ (a.change_color cg text).hooks = []) := by
  unfold change_color at h ⊢
  cases hp : cg.fromStr text with
  | thrown e => simp [hp] at h
  | returned v =>
    simp only [hp] at h ⊢
    rcases assignByUser_returned a v msg h with ⟨h1, _, h3⟩ | ⟨h1, h2, h3⟩
    · exact Or.inl ⟨h1, h3⟩
    · exact Or.inr ⟨h1, h2, h3⟩

end Attribute_

/-- Shape of a returning virtual `change`: either the empty message and one
notification of the owner (if there is one), or a message, the attribute as it
was and no notification. -/
theorem Attribute.change_returned {Color : Type} (cg : ColorGrammar Color)
    (a : Attribute Color) (text msg : String)
    (h : (a.change cg text).result = .returned msg) :
    (msg = "" ∧ (a.change cg text).hooks =
        if a.hasOwner then [(HookEvent.ATTRIBUTE_CHANGED, a.name)] else []) ∨
    (msg ≠ "" ∧ (a.change cg text).self = a ∧ (a.change cg text).hooks = []) := by
  cases a with
  | ATTRIBUTE_INT a =>
    rcases Attribute_.change_int_returned a text msg h with ⟨h1, h3⟩ | ⟨h1, h2, h3⟩
    · exact Or.inl ⟨h1, h3⟩
    · exact Or.inr ⟨h1, congrArg Attribute.ATTRIBUTE_INT h2, h3⟩
  | ATTRIBUTE_ULONG a =>
    rcases Attribute_.change_ulong_returned a text msg h with ⟨h1, h3⟩ | ⟨h1, h2, h3⟩
    · exact Or.inl ⟨h1, h3⟩
    · exact Or.inr ⟨h1, congrArg Attribute.ATTRIBUTE_ULONG h2, h3⟩
  | ATTRIBUTE_BOOL a =>
    rcases Attribute_.change_bool_returned a text msg h with ⟨h1, h3⟩ | ⟨h1, h2, h3⟩
    · exact Or.inl ⟨h1, h3⟩
    · exact Or.inr ⟨h1, congrArg Attribute.ATTRIBUTE_BOOL h2, h3⟩
  | ATTRIBUTE_STRING a =>
    rcases Attribute_.change_string_returned a text msg h with ⟨h1, h3⟩ | ⟨h1, h2, h3⟩
    · exact Or.inl ⟨h1, h3⟩
    · exact Or.inr ⟨h1, congrArg Attribute.ATTRIBUTE_STRING h2, h3⟩
  | ATTRIBUTE_COLOR a =>
    rcases Attribute_.change_color_returned cg a text msg h with ⟨h1, h3⟩ | ⟨h1, h2, h3⟩
    · exact Or.inl ⟨h1, h3⟩
    · exact Or.inr ⟨h1, congrArg Attribute.ATTRIBUTE_COLOR h2, h3⟩

/-- A text `std::stoi` refuses makes `Attribute_<int>::change` leave by the
exception, before `assignByUser` is entered: the attribute is untouched, the
validator is not consulted and nothing is notified. -/
theorem Attribute_.change_int_thrown (a : Attribute_ Int) (text : String) (e : Exn)
    (h : stoi text = .thrown e) :
    a.change_int text = { result := .thrown e, self := a, validated := [], hooks := [] } := by
  simp [Attribute_.change_int, h]

/-! ## Paths, tables and the tree -/

/-- Reading a table after one entry was replaced. -/
theorem assocGet_assocSet {β : Type} (n m : String) (v : β) (l : List (String × β)) :
    assocGet n (assocSet m v l) =
      if n = m then (assocGet m l).map (fun _ => v) else assocGet n l := by
  induction l with
  | nil => simp [assocGet, assocSet]
  | cons e rest ih =>
    obtain ⟨k, w⟩ := e
    by_cases hkm : k = m
    · subst hkm
      by_cases hnk : n = k
      · subst hnk
        simp [assocGet, assocSet]
      · have hkn : ¬ k = n := fun h => hnk h.symm
        simp [assocGet, assocSet, hnk, hkn]
    · by_cases hkn : k = n
      · subst hkn
        simp [assocGet, assocSet, hkm]
      · simp only [assocSet, hkm, if_false, assocGet, hkn, ih]

/-- The text `Path::split` returns never ends in an empty name. -/
theorem Path.split_getLast_ne (s : String) (h : Path.split s ≠ []) :
    (Path.split s).getLast h ≠ "" := by
  have := List.rdropWhile_last_not (fun name : String => decide (name = "")) _ h
  simpa using this

/-- The trimming loop of `cmd_attr` leaves a vector alone that does not end in
an empty name. -/
theorem Root.dropTrailingEmpty_of_getLast_ne (p : List String) (hp : p ≠ [])
    (hlast : p.getLast hp ≠ "") : Root.dropTrailingEmpty p = some p := by
  obtain ⟨init, x, rfl⟩ : ∃ init x, p = init ++ [x] :=
    ⟨p.dropLast, p.getLast hp, (List.dropLast_append_getLast hp).symm⟩
  have hx : x ≠ "" := by simpa using hlast
  simp [Root.dropTrailingEmpty, Root.popEmptyBack, hx]

/-- On the components of a split path the trimming loop of `cmd_attr` is
defined and changes nothing, so the object `cmd_attr` looks up is the one the
split path resolves to. -/
theorem Root.cmd_attr_object {Color : Type} (root : Object Color) (path : String) :
    (if (Path.split path).isEmpty then some (some root)
      else (Root.dropTrailingEmpty (Path.split path)).map root.child)
      = some (root.child (Path.split path)) := by
  by_cases hp : Path.split path = []
  · simp [hp, Object.child]
  · have hne : (Path.split path).isEmpty = false := by
      cases hq : Path.split path with
      | nil => exact absurd hq hp
      | cons _ _ => rfl
    rw [hne, Root.dropTrailingEmpty_of_getLast_ne _ hp (Path.split_getLast_ne path hp)]
    simp

namespace Object

variable {Color : Type}

/-- The child table of a node built from its two tables. -/
theorem children_mk (cs : List (String × Object Color)) (attrs : List (String × Attribute Color)) :
    (mk cs attrs).children_ = cs := rfl

/-- The attribute table of a node built from its two tables. -/
theorem attribs_mk (cs : List (String × Object Color)) (attrs : List (String × Attribute Color)) :
    (mk cs attrs).attribs_ = attrs := rfl

/-- A change inside nodes that keeps their child tables does not change which
paths resolve. -/
theorem child_modifyAt_isSome (f : Object Color → Object Color)
    (hf : ∀ o, (f o).children_ = o.children_) :
    ∀ (p q : List String) (root : Object Color),
      ((root.modifyAt f q).child p).isSome = (root.child p).isSome := by
  intro p
  induction p with
  | nil => intro q root; simp [child]
  | cons n rest ih =>
    intro q root
    cases q with
    | nil => simp [modifyAt, child, hf]
    | cons m qrest =>
      simp only [modifyAt]
      cases hm : assocGet m root.children_ with
      | none => simp
      | some c =>
        simp only [child, children_mk, assocGet_assocSet]
        by_cases hnm : n = m
        · subst hnm
          simp only [if_true, hm, Option.map_some']
          exact ih qrest c
        · simp only [hnm, if_false]

/-- The node a path resolves to after the node at that path was changed. -/
theorem child_modifyAt_self (f : Object Color → Object Color) :
    ∀ (q : List String) (root o : Object Color), root.child q = some o →
      (root.modifyAt f q).child q = some (f o) := by
  intro q
  induction q with
  | nil => intro root o h; simp [child] at h; simp [modifyAt, child, h]
  | cons m rest ih =>
    intro root o h
    simp only [child] at h
    cases hm : assocGet m root.children_ with
    | none => simp [hm] at h
    | some c =>
      simp only [hm] at h
      simp only [modifyAt, hm, child, children_mk, assocGet_assocSet, if_true,
        Option.map_some']
      exact ih c o h

end Object

/-! ## The commands -/

/-- What `getAttribute` returns, by the three ways through it. -/
theorem Root.getAttribute_cases {Color : Type} (root : Object Color) (path : String) :
    (root.child (Object.splitPath path).1 = none ∧
      Root.getAttribute root path =
        (none, "No such object " ++ Path.join (Object.splitPath path).1 '.' ++ "\n")) ∨
    (∃ o, root.child (Object.splitPath path).1 = some o ∧
      o.lookupAttribute (Object.splitPath path).2 = none ∧
      Root.getAttribute root path =
        (none, "Object " ++ Path.join (Object.splitPath path).1 '.' ++ " has no attribute \""
          ++ (Object.splitPath path).2 ++ "\"" ++ "\n")) ∨
    (∃ o a, root.child (Object.splitPath path).1 = some o ∧
      o.lookupAttribute (Object.splitPath path).2 = some a ∧
      Root.getAttribute root path =
        (some ({ objectPath := (Object.splitPath path).1, name := (Object.splitPath path).2 }, a),
          "")) := by
  unfold Root.getAttribute
  cases hc : root.child (Object.splitPath path).1 with
  | none => exact Or.inl ⟨rfl, by simp [hc]⟩
  | some o =>
    cases ha : o.lookupAttribute (Object.splitPath path).2 with
    | none => exact Or.inr (Or.inl ⟨o, rfl, ha, by simp [hc, ha]⟩)
    | some a => exact Or.inr (Or.inr ⟨o, a, rfl, ha, by simp [hc, ha]⟩)

/-- A handle `getAttribute` returned is the split path, points to an attribute of
the tree, and came with no output. -/
theorem Root.getAttribute_some {Color : Type} (root : Object Color) (path : String)
    (r : AttrRef) (a : Attribute Color) (h : (Root.getAttribute root path).1 = some (r, a)) :
    r = { objectPath := (Object.splitPath path).1, name := (Object.splitPath path).2 } ∧
    Root.getAttribute root path = (some (r, a), "") ∧
    ∃ o, root.child r.objectPath = some o ∧ o.lookupAttribute r.name = some a := by
  rcases Root.getAttribute_cases root path with ⟨_, hg⟩ | ⟨o, _, _, hg⟩ | ⟨o, b, hc, ha, hg⟩
  · simp [hg] at h
  · simp [hg] at h
  · rw [hg] at h
    simp only [Option.some.injEq, Prod.mk.injEq] at h
    obtain ⟨rfl, rfl⟩ := h
    exact ⟨rfl, hg, o, hc, ha⟩

/-- Writing through a handle does not change which paths resolve to objects. -/
theorem Object.child_store_isSome {Color : Type} (root : Object Color) (r : AttrRef)
    (a : Attribute Color) (p : List String) :
    ((root.store r a).child p).isSome = (root.child p).isSome :=
  Object.child_modifyAt_isSome
    (fun o : Object Color => Object.mk o.children_ (assocSet r.name a o.attribs_))
    (fun _ => rfl) p r.objectPath root

/-- After a write through a handle that `getAttribute` returned for a path,
`getAttribute` returns the same handle for that path, now pointing to the
written attribute. -/
theorem Root.getAttribute_store {Color : Type} (root : Object Color) (path : String)
    (r : AttrRef) (a b : Attribute Color) (h : (Root.getAttribute root path).1 = some (r, a)) :
    Root.getAttribute (root.store r b) path = (some (r, b), "") := by
  obtain ⟨hr, _, o, hc, ha⟩ := Root.getAttribute_some root path r a h
  have hc2 := Object.child_modifyAt_self
    (fun o : Object Color => Object.mk o.children_ (assocSet r.name b o.attribs_))
    r.objectPath root o hc
  have ha2 : (Object.mk o.children_ (assocSet r.name b o.attribs_)).lookupAttribute r.name
      = some b := by
    unfold Object.lookupAttribute at ha ⊢
    rw [Object.attribs_mk, assocGet_assocSet, if_pos rfl, ha]
    rfl
  subst hr
  simp only at hc2 ha2
  simp only [Root.getAttribute, Object.store, hc2, ha2]

/-- The command `attr <path> <value>` on a path `getAttribute` resolves: the write
goes through the handle, and the status and the output follow the result of
`change`. -/
theorem Root.cmd_attr_write {Color : Type} (h : Host Color) (root : Object Color)
    (cmd path value : String) (r : AttrRef) (a : Attribute Color)
    (hattr : (Root.getAttribute root path).1 = some (r, a)) :
    Root.cmd_attr h root [cmd, path, value] =
      match (a.change h.color value).result with
      | .thrown e =>
        { completion := .thrown e, output := "",
          root := root.store r (a.change h.color value).self,
          hooks := (a.change h.color value).hooks }
      | .returned error_message =>
        if error_message = "" then
          { completion := .returned 0, output := "",
            root := root.store r (a.change h.color value).self,
            hooks := (a.change h.color value).hooks }
        else
          { completion := .returned h.HERBST_INVALID_ARGUMENT,
            output := error_message ++ "\n",
            root := root.store r (a.change h.color value).self,
            hooks := (a.change h.color value).hooks } := by
  obtain ⟨_, hg, _⟩ := Root.getAttribute_some root path r a hattr
  simp only [Root.cmd_attr, List.tail, Root.cmd_attr_object, hg]
  cases root.child (Path.split path) <;> cases (a.change h.color value).result <;> simp

/-- The command `attr <path>` on a path that does not resolve to an object reads
the attribute as `get_attr` does. -/
theorem Root.cmd_attr_read {Color : Type} (h : Host Color) (root : Object Color)
    (cmd path : String) (hnoobj : root.child (Path.split path) = none) :
    Root.cmd_attr h root [cmd, path] = Root.cmd_get_attr h root [cmd, path] := by
  simp only [Root.cmd_attr, Root.cmd_get_attr, List.tail, Root.cmd_attr_object, hnoobj]

/-- The part of `attr <path> <value>` that follows a `change` which returns: the
status is 0 exactly for the empty message; for any other message the status is
`HERBST_INVALID_ARGUMENT`, the output is the message and a newline, and the
attribute the path resolves to is the one from before the command. -/
theorem Root.cmd_attr_write_returned {Color : Type} (h : Host Color) (root : Object Color)
    (cmd path value msg : String) (r : AttrRef) (a : Attribute Color)
    (hcode : h.HERBST_INVALID_ARGUMENT ≠ 0)
    (hattr : (Root.getAttribute root path).1 = some (r, a))
    (hreturned : (a.change h.color value).result = .returned msg) :
    ((Root.cmd_attr h root [cmd, path, value]).completion = .returned 0 ↔ msg = "") ∧
    (msg ≠ "" →
      (Root.cmd_attr h root [cmd, path, value]).completion
        = .returned h.HERBST_INVALID_ARGUMENT ∧
      (Root.cmd_attr h root [cmd, path, value]).output = msg ++ "\n" ∧
      Root.getAttribute (Root.cmd_attr h root [cmd, path, value]).root path
        = (some (r, a), "")) := by
  have hw := Root.cmd_attr_write h root cmd path value r a hattr
  rw [hreturned] at hw
  simp only at hw
  by_cases hmsg : msg = ""
  · rw [if_pos hmsg] at hw
    simp [hw, hmsg]
  · rw [if_neg hmsg] at hw
    rw [hw]
    refine ⟨by simp [hmsg, hcode], fun _ => ⟨rfl, rfl, ?_⟩⟩
    rcases Attribute.change_returned h.color a value msg hreturned with ⟨h1, _⟩ | ⟨_, h2, _⟩
    · exact absurd h1 hmsg
    · simp only [h2]
      exact Root.getAttribute_store root path r a a hattr

/-! ## Trailing separators and the two trimming loops -/

/-- A text always has at least one piece. -/
theorem Path.pieces_ne_nil (delim : Char) (cs : List Char) : Path.pieces delim cs ≠ [] := by
  cases cs with
  | nil => simp [Path.pieces]
  | cons c cs =>
    simp only [Path.pieces]
    split_ifs
    · simp
    · split <;> simp

/-- One more separator at the end of a text adds one empty piece at the end. -/
theorem Path.pieces_append_delim (delim : Char) (cs : List Char) :
    Path.pieces delim (cs ++ [delim]) = Path.pieces delim cs ++ [[]] := by
  induction cs with
  | nil => simp [Path.pieces]
  | cons c cs ih =>
    simp only [List.cons_append, Path.pieces]
    split_ifs
    · simp [ih]
    · cases hp : Path.pieces delim cs with
      | nil => exact absurd hp (Path.pieces_ne_nil delim cs)
      | cons w ws =>
        have ih2 : Path.pieces delim (cs.append [delim]) = (w :: ws) ++ [[]] := by
          rw [← hp]; exact ih
        rw [ih2]
        rfl

/-- One more separator at the end of a text does not change what `split`
returns. -/
theorem Path.split_append_dot (s : String) : Path.split (s ++ ".") = Path.split s := by
  have hdata : (s ++ ".").toList = s.toList ++ ['.'] := by
    simp [String.toList]
  unfold Path.split
  rw [hdata, Path.pieces_append_delim, List.map_append, List.map_singleton,
    List.rdropWhile_concat_pos]
  simp

/-- Any number of separators at the end of a text do not change what `split`
returns. -/
theorem Path.split_append_dots (s : String) (n : Nat) :
    Path.split (s ++ String.mk (List.replicate n '.')) = Path.split s := by
  induction n with
  | zero =>
    have h0 : s ++ String.mk (List.replicate 0 '.') = s := by
      simp
    rw [h0]
  | succ n ih =>
    have h1 : s ++ String.mk (List.replicate (n + 1) '.')
        = (s ++ String.mk (List.replicate n '.')) ++ "." := by
      rw [List.replicate_succ', String.append_assoc]
      congr 1
    rw [h1, Path.split_append_dot, ih]

/-- The guarded loop of `print_object_tree_command` drops the trailing empty
names and nothing else. -/
theorem trimTrailingEmpty_eq_rdropWhile (path : List String) :
    trimTrailingEmpty path = path.rdropWhile (fun name => name = "") := by
  have h : ∀ l : List String,
      popEmptyBackGuarded l = l.dropWhile (fun name => decide (name = "")) := by
    intro l
    induction l with
    | nil => rfl
    | cons x xs ih =>
      by_cases hx : x = ""
      · simp [popEmptyBackGuarded, List.dropWhile, hx, ih]
      · simp [popEmptyBackGuarded, List.dropWhile, hx]
  simp [trimTrailingEmpty, List.rdropWhile, h]

/-- The guarded loop leaves what `Path::split` returns as it is. -/
theorem trimTrailingEmpty_split (s : String) :
    trimTrailingEmpty (Path.split s) = Path.split s := by
  rw [trimTrailingEmpty_eq_rdropWhile]
  exact List.rdropWhile_idempotent _ _

/-- The unguarded loop of `cmd_attr` on a reversed vector: it is undefined exactly
on vectors of empty names only (the vector without names among them), and where
it is defined it computes what the guarded loop computes. -/
theorem Root.popEmptyBack_cases (l : List String) :
    ((∀ x ∈ l, x = "") ∧ Root.popEmptyBack l = none) ∨
    ((∃ x ∈ l, x ≠ "") ∧ Root.popEmptyBack l = some (popEmptyBackGuarded l)) := by
  induction l with
  | nil => exact Or.inl ⟨by simp, rfl⟩
  | cons x xs ih =>
    by_cases hx : x = ""
    · rcases ih with ⟨hall, hnone⟩ | ⟨⟨y, hy, hne⟩, hsome⟩
      · exact Or.inl ⟨by simpa [hx] using hall, by simp [Root.popEmptyBack, hx, hnone]⟩
      · exact Or.inr ⟨⟨y, List.mem_cons_of_mem _ hy, hne⟩,
          by simp [Root.popEmptyBack, popEmptyBackGuarded, hx, hsome]⟩
    · exact Or.inr ⟨⟨x, List.mem_cons_self _ _, hx⟩,
        by simp [Root.popEmptyBack, popEmptyBackGuarded, hx]⟩

/-- On a vector with a non-empty name the loop of `cmd_attr` never takes
`back()` of an empty vector and gives what the guarded loop of
`print_object_tree_command` gives. -/
theorem Root.dropTrailingEmpty_eq_trim (p : List String) (hp : ∃ x ∈ p, x ≠ "") :
    Root.dropTrailingEmpty p = some (trimTrailingEmpty p) := by
  obtain ⟨x, hx, hne⟩ := hp
  rcases Root.popEmptyBack_cases p.reverse with ⟨hall, _⟩ | ⟨_, hsome⟩
  · exact absurd (hall x (List.mem_reverse.mpr hx)) hne
  · simp [Root.dropTrailingEmpty, trimTrailingEmpty, hsome]

/-- On a vector of empty names only the loop of `cmd_attr` pops every name and
then takes `back()` of the empty vector. -/
theorem Root.dropTrailingEmpty_undefined (p : List String) (hp : ∀ x ∈ p, x = "") :
    Root.dropTrailingEmpty p = none := by
  rcases Root.popEmptyBack_cases p.reverse with ⟨_, hnone⟩ | ⟨⟨x, hx, hne⟩, _⟩
  · simp [Root.dropTrailingEmpty, hnone]
  · exact absurd (hp x (List.mem_reverse.mp hx)) hne

/-! ## Status codes -/

/-- The command `ls` returns 0 for every argument list, in every tree. -/
theorem Root.cmd_ls_status {Color : Type} (h : Host Color) (root : Object Color)
    (input : List String) : (Root.cmd_ls h root input).completion = .returned 0 := by
  unfold Root.cmd_ls
  cases input.tail <;> rfl

/-- Status 0 of `get_attr`, `attr` and `object_tree` means that the path given
resolved: to an attribute for `get_attr`, to an object or an attribute for
`attr`, to an object for `object_tree`. -/
theorem Root.status_zero_resolved {Color : Type} (h : Host Color) (root : Object Color)
    (cmd path : String) (rest : List String) (hcode : h.HERBST_INVALID_ARGUMENT ≠ 0) :
    ((Root.cmd_get_attr h root (cmd :: path :: rest)).completion = .returned 0 →
      (Root.getAttribute root path).1.isSome = true) ∧
    ((Root.cmd_attr h root (cmd :: path :: rest)).completion = .returned 0 →
      (root.child (Path.split path)).isSome = true ∨
        (Root.getAttribute root path).1.isSome = true) ∧
    ((print_object_tree_command h root (cmd :: path :: rest)).completion = .returned 0 →
      (root.child (trimTrailingEmpty (Path.toVector path))).isSome = true) := by
  refine ⟨?_, ?_, ?_⟩
  · intro hz
    rcases Root.getAttribute_cases root path with ⟨_, hg⟩ | ⟨o, _, _, hg⟩ | ⟨o, b, _, _, hg⟩
    · simp [Root.cmd_get_attr, hg, hcode] at hz
    · simp [Root.cmd_get_attr, hg, hcode] at hz
    · simp [hg]
  · intro hz
    rcases Root.getAttribute_cases root path with ⟨_, hg⟩ | ⟨o, _, _, hg⟩ | ⟨o, b, _, _, hg⟩
    · simp only [Root.cmd_attr, List.tail, Root.cmd_attr_object, hg] at hz
      cases hc : root.child (Path.split path) with
      | some o => simp
      | none =>
        rw [hc] at hz
        cases rest <;> simp [hcode] at hz
    · simp only [Root.cmd_attr, List.tail, Root.cmd_attr_object, hg] at hz
      cases hc : root.child (Path.split path) with
      | some o => simp
      | none =>
        rw [hc] at hz
        cases rest <;> simp [hcode] at hz
    · simp [hg]
  · intro hz
    simp only [print_object_tree_command, print_object_tree_command_on, List.tail] at hz
    cases hc : root.child (trimTrailingEmpty (Path.toVector path)) with
    | some o => simp
    | none =>
      rw [hc] at hz
      simp [hcode] at hz

/-! ## Parsing and rendering numbers -/

/-- A decimal digit is neither white space nor a sign. -/
theorem isdigit_not_space_not_sign (c : Char) (hc : isdigit c = true) :
    isspace c = false ∧ c ≠ '-' ∧ c ≠ '+' := by
  simp only [isdigit, Bool.and_eq_true, decide_eq_true_eq] at hc
  refine ⟨?_, ?_, ?_⟩
  · simp only [isspace, Bool.or_eq_false_iff, Bool.and_eq_false_iff, decide_eq_false_iff_not]
    omega
  · rintro rfl
    exact absurd hc.1 (by decide)
  · rintro rfl
    exact absurd hc.1 (by decide)

/-- The digits in front of a text that does not go on with a digit are the
longest run of digits at its start. -/
theorem takeWhile_isdigit_append (ds rest : List Char) (hdig : ∀ c ∈ ds, isdigit c = true)
    (hrest : ∀ c, rest.head? = some c → isdigit c = false) :
    (ds ++ rest).takeWhile isdigit = ds := by
  rw [List.takeWhile_append_of_pos hdig]
  cases rest with
  | nil => simp
  | cons c cs => simp [List.takeWhile, hrest c rfl]

/-- What `strtol` and `strtoul` recognise in a text that starts with a numeral
without sign. -/
theorem scanNumber_digits (ds rest : List Char) (hds : ds ≠ [])
    (hdig : ∀ c ∈ ds, isdigit c = true)
    (hrest : ∀ c, rest.head? = some c → isdigit c = false) :
    scanNumber (String.mk (ds ++ rest)) = (false, ds) := by
  cases ds with
  | nil => exact absurd rfl hds
  | cons d tl =>
    obtain ⟨hsp, hminus, hplus⟩ := isdigit_not_space_not_sign d (hdig d (List.mem_cons_self _ _))
    have htake := takeWhile_isdigit_append (d :: tl) rest hdig hrest
    simp only [scanNumber, String.toList, List.cons_append, List.dropWhile, hsp]
    split
    · rename_i heq
      simp only [List.cons.injEq] at heq
      exact absurd heq.1 hminus
    · rename_i heq
      simp only [List.cons.injEq] at heq
      exact absurd heq.1 hplus
    · exact congrArg (Prod.mk false) htake

/-- What `strtol` and `strtoul` recognise in a text that starts with a minus sign
and a numeral. -/
theorem scanNumber_minus_digits (ds rest : List Char)
    (hdig : ∀ c ∈ ds, isdigit c = true)
    (hrest : ∀ c, rest.head? = some c → isdigit c = false) :
    scanNumber (String.mk ('-' :: (ds ++ rest))) = (true, ds) := by
  have hsp : isspace '-' = false := by decide
  simp only [scanNumber, String.toList, List.dropWhile, hsp]
  rw [takeWhile_isdigit_append ds rest hdig hrest]

/-- The conversion `std::stoi` of a text that starts with a numeral without sign, in range. -/
theorem stoi_digits (ds rest : List Char) (hds : ds ≠ [])
    (hdig : ∀ c ∈ ds, isdigit c = true)
    (hrest : ∀ c, rest.head? = some c → isdigit c = false)
    (hmax : (digitsValue ds : Int) ≤ INT_MAX) :
    stoi (String.mk (ds ++ rest)) = .returned (digitsValue ds : Int) := by
  cases ds with
  | nil => exact absurd rfl hds
  | cons d tl =>
    have hmin : ¬ ((digitsValue (d :: tl) : Int) < INT_MIN) := by
      have : (0 : Int) ≤ (digitsValue (d :: tl) : Int) := Int.ofNat_nonneg _
      simp only [INT_MIN]
      omega
    simp only [stoi, scanNumber_digits (d :: tl) rest hds hdig hrest]
    simp [hmin, not_lt.mpr hmax]

/-- The conversion `std::stoi` of a text that starts with a minus sign and a numeral, in
range. -/
theorem stoi_minus_digits (ds rest : List Char) (hds : ds ≠ [])
    (hdig : ∀ c ∈ ds, isdigit c = true)
    (hrest : ∀ c, rest.head? = some c → isdigit c = false)
    (hmin : INT_MIN ≤ - (digitsValue ds : Int)) :
    stoi (String.mk ('-' :: (ds ++ rest))) = .returned (- (digitsValue ds : Int)) := by
  cases ds with
  | nil => exact absurd rfl hds
  | cons d tl =>
    have hmax : ¬ (INT_MAX < - (digitsValue (d :: tl) : Int)) := by
      have : (0 : Int) ≤ (digitsValue (d :: tl) : Int) := Int.ofNat_nonneg _
      simp only [INT_MAX]
      omega
    simp only [stoi, scanNumber_minus_digits (d :: tl) rest hdig hrest]
    simp [hmax, not_lt.mpr hmin]

/-- The conversion `std::stoul` of a text that starts with a numeral without sign, in
range. -/
theorem stoul_digits (ds rest : List Char) (hds : ds ≠ [])
    (hdig : ∀ c ∈ ds, isdigit c = true)
    (hrest : ∀ c, rest.head? = some c → isdigit c = false)
    (hmax : digitsValue ds ≤ ULONG_MAX) :
    stoul (String.mk (ds ++ rest)) = .returned (digitsValue ds) := by
  cases ds with
  | nil => exact absurd rfl hds
  | cons d tl =>
    simp only [stoul, scanNumber_digits (d :: tl) rest hds hdig hrest]
    simp [not_lt.mpr hmax]

/-- The conversion `std::stoul` of a text that starts with a minus sign and a numeral of
a magnitude in range: the value negated in `unsigned long`. -/
theorem stoul_minus_digits (ds rest : List Char) (hds : ds ≠ [])
    (hdig : ∀ c ∈ ds, isdigit c = true)
    (hrest : ∀ c, rest.head? = some c → isdigit c = false)
    (hmax : digitsValue ds ≤ ULONG_MAX) :
    stoul (String.mk ('-' :: (ds ++ rest)))
      = .returned ((ULONG_MAX + 1 - digitsValue ds) % (ULONG_MAX + 1)) := by
  cases ds with
  | nil => exact absurd rfl hds
  | cons d tl =>
    simp only [stoul, scanNumber_minus_digits (d :: tl) rest hdig hrest]
    simp [not_lt.mpr hmax]

/-- The character of a digit value is a decimal digit with that value. -/
theorem digit_char (d : Nat) (hd : d < 10) :
    isdigit (Char.ofNat (48 + d)) = true ∧ (Char.ofNat (48 + d)).toNat - 48 = d := by
  interval_cases d <;> exact ⟨by decide, by decide⟩

/-- The rendering writes decimal digits only. -/
theorem decimalDigits_isdigit (fuel n : Nat) (acc : List Char) :
    ∀ c ∈ decimalDigits fuel n acc, isdigit c = true ∨ c ∈ acc := by
  induction fuel generalizing n acc with
  | zero => intro c hc; exact Or.inr hc
  | succ fuel ih =>
    intro c hc
    simp only [decimalDigits] at hc
    split_ifs at hc with hlt
    · rcases List.mem_cons.mp hc with rfl | hmem
      · exact Or.inl (digit_char n hlt).1
      · exact Or.inr hmem
    · rcases ih (n / 10) _ c hc with hdig | hmem
      · exact Or.inl hdig
      · rcases List.mem_cons.mp hmem with rfl | hmem2
        · exact Or.inl (digit_char (n % 10) (Nat.mod_lt _ (by decide))).1
        · exact Or.inr hmem2

/-- The rendering writes at least one digit. -/
theorem decimalDigits_ne_nil (fuel n : Nat) (acc : List Char) :
    decimalDigits (fuel + 1) n acc ≠ [] := by
  induction fuel generalizing n acc with
  | zero =>
    simp only [decimalDigits]
    split_ifs <;> simp
  | succ fuel ih =>
    rw [decimalDigits]
    split_ifs
    · simp
    · exact ih _ _

/-- Reading the rendering of `n`, in front of `acc`, from 0 is reading `acc` from
`n`. -/
theorem decimalDigits_value (fuel n : Nat) (acc : List Char) (hfuel : n < fuel) :
    (decimalDigits fuel n acc).foldl (fun k c => k * 10 + (c.toNat - 48)) 0
      = acc.foldl (fun k c => k * 10 + (c.toNat - 48)) n := by
  induction fuel generalizing n acc with
  | zero => omega
  | succ fuel ih =>
    simp only [decimalDigits]
    split_ifs with hlt
    · simp [List.foldl, (digit_char n hlt).2]
    · have hdiv : n / 10 < fuel := by omega
      rw [ih (n / 10) _ hdiv]
      have hmod := (digit_char (n % 10) (Nat.mod_lt _ (by decide))).2
      simp only [List.foldl, hmod]
      congr 1
      omega

/-- The digits of the rendering of `n`: not none, digits only, of value `n`. -/
theorem decimalDigits_spec (n : Nat) :
    decimalDigits (n + 1) n [] ≠ [] ∧
    (∀ c ∈ decimalDigits (n + 1) n [], isdigit c = true) ∧
    digitsValue (decimalDigits (n + 1) n []) = n := by
  refine ⟨decimalDigits_ne_nil n n [], ?_, ?_⟩
  · intro c hc
    rcases decimalDigits_isdigit (n + 1) n [] c hc with h | h
    · exact h
    · simp at h
  · unfold digitsValue
    rw [decimalDigits_value (n + 1) n [] (Nat.lt_succ_self n)]
    rfl

/-- Parsing the rendering of an unsigned value in range gives the value. -/
theorem stoul_to_string_ulong (n : Nat) (hn : n ≤ ULONG_MAX) :
    stoul (to_string_ulong n) = .returned n := by
  obtain ⟨hne, hdig, hval⟩ := decimalDigits_spec n
  have h := stoul_digits (decimalDigits (n + 1) n []) [] hne hdig (by simp) (by rw [hval]; exact hn)
  rw [List.append_nil, hval] at h
  exact h

/-- Parsing the rendering of an `int` gives the `int`. -/
theorem stoi_to_string_int (v : Int) (hmin : INT_MIN ≤ v) (hmax : v ≤ INT_MAX) :
    stoi (to_string_int v) = .returned v := by
  obtain ⟨hne, hdig, hval⟩ := decimalDigits_spec v.natAbs
  unfold to_string_int
  split_ifs with hneg
  · have h := stoi_minus_digits (decimalDigits (v.natAbs + 1) v.natAbs []) [] hne hdig
      (by simp) (by rw [hval]; omega)
    rw [List.append_nil, hval] at h
    rw [h]
    congr 1
    omega
  · unfold to_string_ulong
    have h := stoi_digits (decimalDigits (v.natAbs + 1) v.natAbs []) [] hne hdig
      (by simp) (by rw [hval]; omega)
    rw [List.append_nil, hval] at h
    rw [h]
    congr 1
    omega

/-- What `strtol` and `strtoul` recognise in a text that starts with a numeral:
its sign and its digits. -/
theorem scanNumber_of_startsWithNumeral (text : String) (negative : Bool) (ds : List Char)
    (h : StartsWithNumeral text negative ds) : scanNumber text = (negative, ds) := by
  obtain ⟨ws, sign, rest, htext, hws, hsign, hds, hdig, hrest⟩ := h
  have htake := takeWhile_isdigit_append ds rest hdig hrest
  cases ds with
  | nil => exact absurd rfl hds
  | cons d tl =>
    obtain ⟨hsp, hminus, hplus⟩ := isdigit_not_space_not_sign d (hdig d (List.mem_cons_self _ _))
    unfold scanNumber
    rw [htext, List.dropWhile_append_of_pos hws]
    rcases hsign with ⟨rfl, rfl⟩ | ⟨rfl, rfl⟩ | ⟨rfl, rfl⟩
    · have hdrop : List.dropWhile isspace ([] ++ (d :: tl ++ rest)) = d :: (tl ++ rest) := by
        simp [List.dropWhile, hsp]
      rw [hdrop]
      split
      · rename_i heq
        simp only [List.cons.injEq] at heq
        exact absurd heq.1 hminus
      · rename_i heq
        simp only [List.cons.injEq] at heq
        exact absurd heq.1 hplus
      · exact congrArg (Prod.mk false) htake
    · have hsp2 : isspace '+' = false := by decide
      have hdrop : List.dropWhile isspace (['+'] ++ (d :: tl ++ rest))
          = '+' :: (d :: tl ++ rest) := by
        simp [List.dropWhile, hsp2]
      rw [hdrop]
      exact congrArg (Prod.mk false) htake
    · have hsp2 : isspace '-' = false := by decide
      have hdrop : List.dropWhile isspace (['-'] ++ (d :: tl ++ rest))
          = '-' :: (d :: tl ++ rest) := by
        simp [List.dropWhile, hsp2]
      rw [hdrop]
      exact congrArg (Prod.mk true) htake

/-- A text in which `strtol` and `strtoul` recognise digits starts with a numeral
of these digits and of the sign recognised. -/
theorem startsWithNumeral_of_scanNumber (text : String) (negative : Bool) (ds : List Char)
    (h : scanNumber text = (negative, ds)) (hds : ds ≠ []) :
    StartsWithNumeral text negative ds := by
  have hsplit : text.toList
      = text.toList.takeWhile isspace ++ text.toList.dropWhile isspace :=
    (List.takeWhile_append_dropWhile isspace text.toList).symm
  have hws : ∀ c ∈ text.toList.takeWhile isspace, isspace c = true :=
    fun c hc => List.mem_takeWhile_imp hc
  have hdigits : ∀ l : List Char, ∀ c ∈ l.takeWhile isdigit, isdigit c = true :=
    fun l c hc => List.mem_takeWhile_imp hc
  have hafter : ∀ (l : List Char) (c : Char), (l.dropWhile isdigit).head? = some c →
      isdigit c = false := by
    intro l c hc
    have := List.head?_dropWhile_not isdigit l
    rw [hc] at this
    exact this
  unfold scanNumber at h
  split at h
  · rename_i rest heq
    simp only [Prod.mk.injEq] at h
    obtain ⟨rfl, rfl⟩ := h
    refine ⟨_, ['-'], rest.dropWhile isdigit, ?_, hws, Or.inr (Or.inr ⟨rfl, rfl⟩), hds,
      hdigits rest, hafter rest⟩
    rw [List.takeWhile_append_dropWhile, List.singleton_append, ← heq]
    exact hsplit
  · rename_i rest heq
    simp only [Prod.mk.injEq] at h
    obtain ⟨rfl, rfl⟩ := h
    refine ⟨_, ['+'], rest.dropWhile isdigit, ?_, hws, Or.inr (Or.inl ⟨rfl, rfl⟩), hds,
      hdigits rest, hafter rest⟩
    rw [List.takeWhile_append_dropWhile, List.singleton_append, ← heq]
    exact hsplit
  · rename_i rest _ _
    simp only [Prod.mk.injEq] at h
    obtain ⟨rfl, rfl⟩ := h
    refine ⟨_, [], (text.toList.dropWhile isspace).dropWhile isdigit, ?_, hws,
      Or.inl ⟨rfl, rfl⟩, hds, hdigits _, hafter _⟩
    rw [List.takeWhile_append_dropWhile, List.nil_append]
    exact hsplit

/-- A text starts with at most one numeral: the sign and the digits are
determined by the text. -/
theorem StartsWithNumeral.unique (text : String) (n1 n2 : Bool) (ds1 ds2 : List Char)
    (h1 : StartsWithNumeral text n1 ds1) (h2 : StartsWithNumeral text n2 ds2) :
    n1 = n2 ∧ ds1 = ds2 := by
  have e1 := scanNumber_of_startsWithNumeral text n1 ds1 h1
  have e2 := scanNumber_of_startsWithNumeral text n2 ds2 h2
  rw [e1] at e2
  simpa using e2

/-- The conversion `std::stoi` of a text that starts with a numeral: its value with sign, or
`out_of_range` when that is not an `int`. -/
theorem stoi_of_startsWithNumeral (text : String) (negative : Bool) (ds : List Char)
    (h : StartsWithNumeral text negative ds) :
    stoi text =
      if signedValue negative ds < INT_MIN ∨ INT_MAX < signedValue negative ds
      then .thrown .out_of_range else .returned (signedValue negative ds) := by
  have hscan := scanNumber_of_startsWithNumeral text negative ds h
  obtain ⟨_, _, _, _, _, _, hds, _, _⟩ := h
  cases ds with
  | nil => exact absurd rfl hds
  | cons d tl => simp only [stoi, hscan, signedValue]

/-- The conversion `std::stoul` of a text that starts with a numeral: its value, negated in
`unsigned long` after a minus sign, or `out_of_range` when the magnitude is
above `ULONG_MAX`. -/
theorem stoul_of_startsWithNumeral (text : String) (negative : Bool) (ds : List Char)
    (h : StartsWithNumeral text negative ds) :
    stoul text =
      if ULONG_MAX < digitsValue ds then .thrown .out_of_range
      else .returned (wrappedValue negative ds) := by
  have hscan := scanNumber_of_startsWithNumeral text negative ds h
  obtain ⟨_, _, _, _, _, _, hds, _, _⟩ := h
  cases ds with
  | nil => exact absurd rfl hds
  | cons d tl => simp only [stoul, hscan, wrappedValue]

/-- In a text that does not start with a numeral `strtol` and `strtoul` recognise
no digits. -/
theorem scanNumber_no_numeral (text : String)
    (h : ¬ ∃ negative ds, StartsWithNumeral text negative ds) :
    (scanNumber text).2 = [] := by
  by_contra hne
  exact h ⟨(scanNumber text).1, (scanNumber text).2,
    startsWithNumeral_of_scanNumber text _ _ rfl hne⟩

/-- The conversion `std::stoi` of a text that does not start with a numeral raises
`invalid_argument`. -/
theorem stoi_no_numeral (text : String)
    (h : ¬ ∃ negative ds, StartsWithNumeral text negative ds) :
    stoi text = .thrown .invalid_argument := by
  have hnil := scanNumber_no_numeral text h
  unfold stoi
  cases hs : scanNumber text with
  | mk negative ds =>
    rw [hs] at hnil
    simp only at hnil
    subst hnil
    rfl

/-- The conversion `std::stoul` of a text that does not start with a numeral raises
`invalid_argument`. -/
theorem stoul_no_numeral (text : String)
    (h : ¬ ∃ negative ds, StartsWithNumeral text negative ds) :
    stoul text = .thrown .invalid_argument := by
  have hnil := scanNumber_no_numeral text h
  unfold stoul
  cases hs : scanNumber text with
  | mk negative ds =>
    rw [hs] at hnil
    simp only at hnil
    subst hnil
    rfl

/-- An external assignment raises neither `invalid_argument` nor `out_of_range`. -/
theorem Attribute_.assignByUser_no_parse_failure {T : Type} (a : Attribute_ T) (v : T) :
    (a.assignByUser v).result ≠ .thrown .invalid_argument ∧
    (a.assignByUser v).result ≠ .thrown .out_of_range := by
  obtain ⟨n, w, o, m, p⟩ := a
  cases w with
  | false => simp [Attribute_.assignByUser]
  | true =>
    cases m with
    | none => simp [Attribute_.assignByUser]
    | some f =>
      by_cases hacc : f v = ""
      · simp [Attribute_.assignByUser, hacc]
      · simp [Attribute_.assignByUser, hacc]

/-! ## The claims -/

/-- C1 (the code departs from the claim): the read-only string attribute
`version`, holding `0.7`, does not reject the external write of `9.9`: `change`
returns the empty message, the stored value is `9.9` afterwards, the validator
was not consulted and the owner was notified. -/
theorem C1_read_only_write_is_accepted :
    (Sample.version.change_string "9.9").result = .returned "" ∧
    (Sample.version.change_string "9.9").self.payload_ = "9.9" ∧
    Sample.version.payload_ = "0.7" ∧
    Sample.version.writeable_ = false ∧
    (Sample.version.change_string "9.9").validated = [] ∧
    (Sample.version.change_string "9.9").hooks = [(HookEvent.ATTRIBUTE_CHANGED, "version")] := by
  decide

/-- C2: for an attribute of any of the five kinds and any text, if `change`
returns a non-empty message then the attribute is as it was before the call, so
`str()` gives the same text as before. -/
theorem C2_rejected_change_keeps_str {Color : Type} (cg : ColorGrammar Color)
    (a : Attribute Color) (text msg : String)
    (hrejected : (a.change cg text).result = .returned msg) (hmsg : msg ≠ "") :
    (a.change cg text).self = a ∧ (a.change cg text).self.str cg = a.str cg := by
  rcases Attribute.change_returned cg a text msg hrejected with ⟨h1, _⟩ | ⟨_, h2, _⟩
  · exact absurd h1 hmsg
  · exact ⟨h2, by rw [h2]⟩

/-- C2 at the attribute `tags` (holding `1,2,3`) and the empty text, which its
validator rejects. -/
theorem C2_rejected_change_keeps_str_witness :
    (Sample.tagsAttribute.change Sample.color "").self
        = Sample.tagsAttribute ∧
    ((Sample.tagsAttribute.change Sample.color "").self.str Sample.color)
        = Sample.tagsAttribute.str Sample.color :=
  C2_rejected_change_keeps_str Sample.color Sample.tagsAttribute ""
    "the name must not be empty" (by decide) (by decide)

/-- C3 (the code departs from the claim): on the sample tree, whose root has the
writable integer attribute `border`, the command `attr border abc` does not
return a status: `std::stoi` raises `invalid_argument`, which leaves
`Attribute_<int>::change` and `cmd_attr`; nothing is written to the output.  The
stored value is still 5. -/
theorem C3_malformed_integer_leaves_cmd_attr_by_exception :
    (Root.cmd_attr Sample.host Sample.tree ["attr", "border", "abc"]).completion
      = .thrown .invalid_argument ∧
    (Root.cmd_attr Sample.host Sample.tree ["attr", "border", "abc"]).output = "" ∧
    (Sample.border.change_int "abc").result = .thrown .invalid_argument ∧
    (Sample.border.change_int "abc").self.payload_ = 5 := by
  decide

/-- C4: for an attribute with an owner and any text, a `change` that returns the
empty message delivers exactly one `ATTRIBUTE_CHANGED` notification with the
name of the attribute, and a `change` that returns a non-empty message delivers
none. -/
theorem C4_notification_iff_accepted {Color : Type} (cg : ColorGrammar Color)
    (a : Attribute Color) (text : String) (howner : a.hasOwner = true) :
    ((a.change cg text).result = .returned "" →
      (a.change cg text).hooks = [(HookEvent.ATTRIBUTE_CHANGED, a.name)]) ∧
    (∀ msg : String, msg ≠ "" → (a.change cg text).result = .returned msg →
      (a.change cg text).hooks = []) := by
  constructor
  · intro h
    rcases Attribute.change_returned cg a text "" h with ⟨_, h3⟩ | ⟨h1, _, _⟩
    · rw [h3, howner]; rfl
    · exact absurd rfl h1
  · intro msg hmsg h
    rcases Attribute.change_returned cg a text msg h with ⟨h1, _⟩ | ⟨_, _, h3⟩
    · exact absurd h1 hmsg
    · exact h3

/-- C4 at the owned attribute `tags` and the text `4,5`, which is accepted. -/
theorem C4_notification_iff_accepted_witness :
    ((Sample.tagsAttribute.change Sample.color "4,5").result
        = .returned "" →
      (Sample.tagsAttribute.change Sample.color "4,5").hooks
        = [(HookEvent.ATTRIBUTE_CHANGED, Sample.tagsAttribute.name)]) ∧
    (∀ msg : String, msg ≠ "" →
      (Sample.tagsAttribute.change Sample.color "4,5").result
        = .returned msg →
      (Sample.tagsAttribute.change Sample.color "4,5").hooks = []) :=
  C4_notification_iff_accepted Sample.color Sample.tagsAttribute "4,5"
    (by decide)

/-- C5: on a writable boolean attribute whose validator accepts every value,
`change` with `on` or `true` returns the empty message and leaves true, with
`off` or `false` leaves false, with `toggle` leaves the negation of the value
before; `str()` afterwards is `true` or `false` accordingly. -/
theorem C5_boolean_grammar (a : Attribute_ Bool) (f : Bool → String)
    (hw : a.writeable_ = true) (hf : a.m_onChange = some f) (hacc : ∀ b, f b = "") :
    (∀ text : String, text = "on" ∨ text = "true" →
      (a.change_bool text).result = .returned "" ∧
      (a.change_bool text).self.payload_ = true ∧
      (a.change_bool text).self.str_bool = "true") ∧
    (∀ text : String, text = "off" ∨ text = "false" →
      (a.change_bool text).result = .returned "" ∧
      (a.change_bool text).self.payload_ = false ∧
      (a.change_bool text).self.str_bool = "false") ∧
    ((a.change_bool "toggle").result = .returned "" ∧
      (a.change_bool "toggle").self.payload_ = (!a.payload_) ∧
      (a.change_bool "toggle").self.str_bool = if a.payload_ then "false" else "true") := by
  have key : ∀ v : Bool, a.assignByUser v =
      { result := .returned "", self := { a with payload_ := v }, validated := [v],
        hooks := Attribute_.notifyHooks { a with payload_ := v } } := by
    intro v
    rw [Attribute_.assignByUser_writable a v f hw hf, if_pos (hacc v)]
  refine ⟨?_, ?_, ?_⟩
  · intro text ht
    have hoff : ¬ (text = "off" ∨ text = "false") := by
      rcases ht with rfl | rfl <;> decide
    simp [Attribute_.change_bool, hoff, ht, key, Attribute_.str_bool]
  · intro text ht
    simp [Attribute_.change_bool, ht, key, Attribute_.str_bool]
  · have h1 : ¬ (("toggle" : String) = "off" ∨ ("toggle" : String) = "false") := by decide
    have h2 : ¬ (("toggle" : String) = "on" ∨ ("toggle" : String) = "true") := by decide
    simp only [Attribute_.change_bool, h1, h2, if_false, if_true, key, Attribute_.str_bool]
    cases a.payload_ <;> simp

/-- C5 at the attribute `floating`, which holds false: `toggle` is accepted,
leaves true, and `str()` is then `true`. -/
theorem C5_boolean_grammar_witness :
    (Sample.floating.change_bool "toggle").result = .returned "" ∧
    (Sample.floating.change_bool "toggle").self.payload_ = true ∧
    (Sample.floating.change_bool "toggle").self.str_bool = "true" :=
  (C5_boolean_grammar Sample.floating Sample.anything rfl rfl (fun _ => rfl)).2.2

/-- C6: on any boolean attribute, a text other than exactly `on`, `off`, `true`,
`false` or `toggle` makes `change` return the fixed diagnostic; the attribute is
as before, the validator was not invoked and nothing was notified. -/
theorem C6_boolean_parse_failure (a : Attribute_ Bool) (text : String)
    (hon : text ≠ "on") (hoff : text ≠ "off") (htrue : text ≠ "true")
    (hfalse : text ≠ "false") (htoggle : text ≠ "toggle") :
    (a.change_bool text).result
      = .returned "only on/off/true/false/toggle are valid booleans" ∧
    (a.change_bool text).self = a ∧
    (a.change_bool text).validated = [] ∧
    (a.change_bool text).hooks = [] := by
  simp [Attribute_.change_bool, hon, hoff, htrue, hfalse, htoggle]

/-- C6 at the attribute `floating` and the text `On`: matching is case
sensitive. -/
theorem C6_boolean_parse_failure_witness :
    (Sample.floating.change_bool "On").result
      = .returned "only on/off/true/false/toggle are valid booleans" ∧
    (Sample.floating.change_bool "On").self = Sample.floating ∧
    (Sample.floating.change_bool "On").validated = [] ∧
    (Sample.floating.change_bool "On").hooks = [] :=
  C6_boolean_parse_failure Sample.floating "On" (by decide) (by decide) (by decide)
    (by decide) (by decide)

/-- C7: when `getAttribute` resolves a path to a string attribute, the split
path does not resolve to an object, and `change` accepts the text `v`, then
`attr <path> <v>` returns 0 and writes nothing, and `attr <path>` on the tree it
leaves returns 0 and writes exactly `v`. -/
theorem C7_set_then_get {Color : Type} (h : Host Color) (root : Object Color)
    (cmd1 cmd2 path v : String) (r : AttrRef) (a : Attribute_ String)
    (hattr : (Root.getAttribute root path).1 = some (r, Attribute.ATTRIBUTE_STRING a))
    (hnoobj : root.child (Path.split path) = none)
    (haccepted : (a.change_string v).result = .returned "") :
    (Root.cmd_attr h root [cmd1, path, v]).completion = .returned 0 ∧
    (Root.cmd_attr h root [cmd1, path, v]).output = "" ∧
    (Root.cmd_attr h (Root.cmd_attr h root [cmd1, path, v]).root [cmd2, path]).completion
      = .returned 0 ∧
    (Root.cmd_attr h (Root.cmd_attr h root [cmd1, path, v]).root [cmd2, path]).output = v := by
  have hres : ((Attribute.ATTRIBUTE_STRING a : Attribute Color).change h.color v).result
      = .returned "" := haccepted
  have hself : ((Attribute.ATTRIBUTE_STRING a : Attribute Color).change h.color v).self
      = Attribute.ATTRIBUTE_STRING { a with payload_ := v } := by
    rcases Attribute_.assignByUser_returned a v "" haccepted with ⟨_, h2, _⟩ | ⟨h1, _, _⟩
    · exact congrArg Attribute.ATTRIBUTE_STRING h2
    · exact absurd rfl h1
  have hw := Root.cmd_attr_write h root cmd1 path v r _ hattr
  rw [hres, hself] at hw
  simp only [if_true] at hw
  have hg := Root.getAttribute_store root path r _
    (Attribute.ATTRIBUTE_STRING { a with payload_ := v }) hattr
  have hno : (root.store r (Attribute.ATTRIBUTE_STRING { a with payload_ := v })).child
      (Path.split path) = none := by
    have := Object.child_store_isSome root r
      (Attribute.ATTRIBUTE_STRING { a with payload_ := v }) (Path.split path)
    rw [hnoobj] at this
    simpa using this
  rw [hw]
  refine ⟨rfl, rfl, ?_, ?_⟩
  · rw [Root.cmd_attr_read h _ cmd2 path hno]
    simp [Root.cmd_get_attr, hg]
  · rw [Root.cmd_attr_read h _ cmd2 path hno]
    simp [Root.cmd_get_attr, hg, Attribute.str, Attribute_.str_string]

/-- C7 on the sample tree: `attr tags 4,5` returns 0 without output, and
`attr tags` then returns 0 and writes `4,5`. -/
theorem C7_set_then_get_witness :
    (Root.cmd_attr Sample.host Sample.tree ["attr", "tags", "4,5"]).completion = .returned 0 ∧
    (Root.cmd_attr Sample.host Sample.tree ["attr", "tags", "4,5"]).output = "" ∧
    (Root.cmd_attr Sample.host
      (Root.cmd_attr Sample.host Sample.tree ["attr", "tags", "4,5"]).root
      ["attr", "tags"]).completion = .returned 0 ∧
    (Root.cmd_attr Sample.host
      (Root.cmd_attr Sample.host Sample.tree ["attr", "tags", "4,5"]).root
      ["attr", "tags"]).output = "4,5" :=
  C7_set_then_get Sample.host Sample.tree "attr" "attr" "tags" "4,5"
    { objectPath := [], name := "tags" } Sample.tags rfl rfl (by decide)

/-- C8 (the code departs from the claim): on the sample tree, `attr border
99999999999` resolves to the integer attribute `border`, whose `change` does
not return the empty message; yet the command does not return
`HERBST_INVALID_ARGUMENT` and writes no message: `std::stoi` raises
`out_of_range`, which leaves `cmd_attr`. -/
theorem C8_out_of_range_integer_leaves_cmd_attr_by_exception :
    (Root.getAttribute Sample.tree "border").1
      = some ({ objectPath := [], name := "border" }, Sample.borderAttribute) ∧
    (Sample.borderAttribute.change Sample.color "99999999999").result
      = .thrown .out_of_range ∧
    (Root.cmd_attr Sample.host Sample.tree ["attr", "border", "99999999999"]).completion
      = .thrown .out_of_range ∧
    (Root.cmd_attr Sample.host Sample.tree ["attr", "border", "99999999999"]).output = "" := by
  refine ⟨rfl, by decide, by decide, by decide⟩

/-- C9: `getAttribute` takes the last component of the split path as attribute
name and the components before it as object path.  It returns a handle exactly
when the object path resolves from the root to a node that has an attribute
under that name, the handle then points to that attribute and nothing is
written.  If the object path does not resolve, nothing is returned and the one
line `No such object`, with the dotted object path, is written; if the node
lacks the attribute, nothing is returned and the one line `Object ... has no
attribute "..."` is written. -/
theorem C9_getAttribute {Color : Type} (root : Object Color) (path : String) :
    Object.splitPath path = ((Path.split path).dropLast, (Path.split path).getLastD "") ∧
    (∀ (r : AttrRef) (a : Attribute Color),
      (Root.getAttribute root path).1 = some (r, a) ↔
        (r = { objectPath := (Object.splitPath path).1, name := (Object.splitPath path).2 } ∧
          ∃ o, root.child (Object.splitPath path).1 = some o ∧
            o.lookupAttribute (Object.splitPath path).2 = some a)) ∧
    ((Root.getAttribute root path).1.isSome = true → (Root.getAttribute root path).2 = "") ∧
    (root.child (Object.splitPath path).1 = none →
      Root.getAttribute root path =
        (none, "No such object " ++ Path.join (Object.splitPath path).1 '.' ++ "\n")) ∧
    (∀ o, root.child (Object.splitPath path).1 = some o →
      o.lookupAttribute (Object.splitPath path).2 = none →
      Root.getAttribute root path =
        (none, "Object " ++ Path.join (Object.splitPath path).1 '.' ++ " has no attribute \""
          ++ (Object.splitPath path).2 ++ "\"" ++ "\n")) := by
  refine ⟨rfl, ?_, ?_, ?_, ?_⟩
  · intro r a
    rcases Root.getAttribute_cases root path with ⟨hc, hg⟩ | ⟨o, hc, ha, hg⟩ | ⟨o, b, hc, ha, hg⟩
    · simp [hg, hc]
    · simp [hg, hc, ha]
    · rw [hg, hc]
      constructor
      · intro h
        simp only [Option.some.injEq, Prod.mk.injEq] at h
        exact ⟨h.1.symm, o, rfl, h.2 ▸ ha⟩
      · rintro ⟨hr, o2, ho2, ha2⟩
        simp only [Option.some.injEq] at ho2
        subst ho2
        rw [ha] at ha2
        simp only [Option.some.injEq] at ha2
        simp [hr, ha2]
  · intro h
    rcases Root.getAttribute_cases root path with ⟨_, hg⟩ | ⟨o, _, _, hg⟩ | ⟨o, b, _, _, hg⟩
    · simp [hg] at h
    · simp [hg] at h
    · simp [hg]
  · intro hnone
    rcases Root.getAttribute_cases root path with ⟨_, hg⟩ | ⟨o, hc, _, _⟩ | ⟨o, b, hc, _, _⟩
    · exact hg
    · simp [hnone] at hc
    · simp [hnone] at hc
  · intro o ho hnone
    rcases Root.getAttribute_cases root path with ⟨hc, _⟩ | ⟨o2, hc, _, hg⟩ | ⟨o2, b, hc, ha, _⟩
    · simp [ho] at hc
    · exact hg
    · rw [ho] at hc
      simp only [Option.some.injEq] at hc
      subst hc
      simp [hnone] at ha

/-- C10: `get_attr` never changes the tree and notifies nobody.  Without an
argument after the command name it returns `HERBST_NEED_MORE_ARGS` and writes
nothing; with a path `getAttribute` resolves it returns 0 and writes exactly
`str()` of that attribute; with a path `getAttribute` does not resolve it
returns `HERBST_INVALID_ARGUMENT` and the output is what `getAttribute` wrote. -/
theorem C10_cmd_get_attr {Color : Type} (h : Host Color) (root : Object Color)
    (input : List String) :
    (Root.cmd_get_attr h root input).root = root ∧
    (Root.cmd_get_attr h root input).hooks = [] ∧
    (input.tail = [] →
      (Root.cmd_get_attr h root input).completion = .returned h.HERBST_NEED_MORE_ARGS ∧
      (Root.cmd_get_attr h root input).output = "") ∧
    (∀ (path : String) (rest : List String), input.tail = path :: rest →
      (∀ (r : AttrRef) (a : Attribute Color), (Root.getAttribute root path).1 = some (r, a) →
        (Root.cmd_get_attr h root input).completion = .returned 0 ∧
        (Root.cmd_get_attr h root input).output = a.str h.color) ∧
      ((Root.getAttribute root path).1 = none →
        (Root.cmd_get_attr h root input).completion = .returned h.HERBST_INVALID_ARGUMENT ∧
        (Root.cmd_get_attr h root input).output = (Root.getAttribute root path).2)) := by
  unfold Root.cmd_get_attr
  cases ht : input.tail with
  | nil => simp
  | cons front rest =>
    rcases Root.getAttribute_cases root front with ⟨_, hg⟩ | ⟨o, _, _, hg⟩ | ⟨o, b, _, _, hg⟩
    · simp [hg]
    · simp [hg]
    · simp only [hg]
      refine ⟨trivial, trivial, by simp, ?_⟩
      intro path rest2 hpr
      simp only [List.cons.injEq] at hpr
      obtain ⟨rfl, rfl⟩ := hpr
      rw [hg]
      simp

/-- C11: the lifecycle of the singleton.  `create()` on an existing instance
raises the logic error `Redundant root node creation!` and leaves the instance
as it is; `create()` without an instance returns a root that is then the
singleton and that has the children `hooks` and `clients`; `destroy()` on an
instance leaves no instance, and `create()` after it succeeds with a fresh root
that has both children. -/
theorem C11_root_lifecycle {Color : Type} (h : Host Color) :
    (∀ existing : Object Color,
      Root.create h (some existing)
        = (.thrown (.logic_error "Redundant root node creation!"), some existing)) ∧
    (Root.create h none = (.returned (Root.construct h), some (Root.construct h)) ∧
      (Root.construct h).child ["hooks"] = some h.hookManager ∧
      (Root.construct h).child ["clients"] = some h.clientManager ∧
      Root.clients (Root.construct h) = some h.clientManager) ∧
    (∀ existing : Object Color, Root.destroy (some existing) = some none) ∧
    (∀ existing : Object Color,
      (Root.destroy (some existing)).map (Root.create h)
        = some (.returned (Root.construct h), some (Root.construct h))) := by
  have hne : ¬ ("hooks" : String) = "clients" := by decide
  refine ⟨fun _ => rfl, ⟨rfl, ?_, ?_, ?_⟩, fun _ => rfl, fun _ => rfl⟩
  · simp [Root.construct, Object.addChild, Object.child, Object.children_, assocGet, hne]
  · simp [Root.construct, Object.addChild, Object.child, Object.children_, assocGet, hne]
  · simp [Root.clients, Root.construct, Object.addChild, Object.child, Object.children_,
      assocGet, hne]

/-- C12: for every tree and every path text `s`, `object_tree` called with `s`
followed by any number of `.` does what it does when called with `s` (same
status, same output, same tree), whenever the appended separators add nothing
but empty names at the end of the components of the path, as they do for every
split at the separator: the loop of the command drops these names.  This holds
in particular with the components as the spec describes them. -/
theorem C12_object_tree_trailing_dots {Color : Type} (toVector : String → List String)
    (h : Host Color) (root : Object Color) (cmd s : String) (rest : List String) (n : Nat)
    (hdots : ∃ k, toVector (s ++ String.mk (List.replicate n '.'))
      = toVector s ++ List.replicate k "") :
    print_object_tree_command_on toVector h root
        (cmd :: (s ++ String.mk (List.replicate n '.')) :: rest)
      = print_object_tree_command_on toVector h root (cmd :: s :: rest) ∧
    print_object_tree_command h root (cmd :: (s ++ String.mk (List.replicate n '.')) :: rest)
      = print_object_tree_command h root (cmd :: s :: rest) := by
  have key : ∀ (p : List String) (k : Nat),
      trimTrailingEmpty (p ++ List.replicate k "") = trimTrailingEmpty p := by
    intro p k
    induction k with
    | zero => simp
    | succ k ih =>
      rw [List.replicate_succ', ← List.append_assoc]
      simpa [trimTrailingEmpty, popEmptyBackGuarded] using ih
  have gen : ∀ components : String → List String,
      (∃ k, components (s ++ String.mk (List.replicate n '.'))
        = components s ++ List.replicate k "") →
      print_object_tree_command_on components h root
          (cmd :: (s ++ String.mk (List.replicate n '.')) :: rest)
        = print_object_tree_command_on components h root (cmd :: s :: rest) := by
    rintro components ⟨k, hk⟩
    simp only [print_object_tree_command_on, List.tail, hk, key]
  exact ⟨gen toVector hdots,
    gen Path.toVector ⟨0, by simp [Path.toVector, Path.split_append_dots]⟩⟩

/-- C12 on the sample tree with the plain split, for which `clients..` has the
components `clients` and two empty names: `object_tree clients..` does what
`object_tree clients` does, which is to print the child `clients` under the
label `clients` and to return 0. -/
theorem C12_object_tree_trailing_dots_witness :
    Sample.plainSplit "clients.." = ["clients", "", ""] ∧
    (print_object_tree_command_on Sample.plainSplit Sample.host Sample.tree
        ["object_tree", "clients.."]).completion = .returned 0 ∧
    (print_object_tree_command_on Sample.plainSplit Sample.host Sample.tree
        ["object_tree", "clients.."]).output = "clients: " ∧
    print_object_tree_command_on Sample.plainSplit Sample.host Sample.tree
        ["object_tree", "clients.."]
      = print_object_tree_command_on Sample.plainSplit Sample.host Sample.tree
        ["object_tree", "clients"] :=
  ⟨by decide, by decide, by decide,
   (C12_object_tree_trailing_dots Sample.plainSplit Sample.host Sample.tree "object_tree"
    "clients" [] 2 ⟨2, by decide⟩).1⟩

/-- C13: let `path` be the components of the argument of `object_tree` (of the
empty text without an argument) after the trailing empty names were dropped.
The command returns `HERBST_INVALID_ARGUMENT` exactly when `path` does not
resolve from the root; the output is then the line `No such object` with the
dotted `path` and nothing else.  Otherwise it returns 0 and the output is what
`printTree` writes for the resolved object and the dotted `path`.  Without an
argument the object is the root, the label is empty and the status is 0.  The
tree is never changed. -/
theorem C13_object_tree {Color : Type} (h : Host Color) (root : Object Color)
    (input : List String) (hcode : h.HERBST_INVALID_ARGUMENT ≠ 0) :
    ((print_object_tree_command h root input).completion
        = .returned h.HERBST_INVALID_ARGUMENT ↔
      root.child (trimTrailingEmpty (Path.toVector (input.tail.headD ""))) = none) ∧
    (root.child (trimTrailingEmpty (Path.toVector (input.tail.headD ""))) = none →
      (print_object_tree_command h root input).output
        = "No such object "
          ++ Path.join (trimTrailingEmpty (Path.toVector (input.tail.headD ""))) '.' ++ "\n") ∧
    (∀ o, root.child (trimTrailingEmpty (Path.toVector (input.tail.headD ""))) = some o →
      (print_object_tree_command h root input).completion = .returned 0 ∧
      (print_object_tree_command h root input).output
        = h.printTree o
            (Path.join (trimTrailingEmpty (Path.toVector (input.tail.headD ""))) '.')) ∧
    (input.tail = [] →
      (print_object_tree_command h root input).completion = .returned 0 ∧
      (print_object_tree_command h root input).output = h.printTree root "") ∧
    (print_object_tree_command h root input).root = root := by
  have hhead : (match input.tail with
      | [] => ""
      | front :: _ => front) = input.tail.headD "" := by
    cases input.tail <;> rfl
  have hnone : ∀ {p : List String}, root.child p = none →
      (match root.child p with
        | none => ({ completion := .returned h.HERBST_INVALID_ARGUMENT,
                     output := "No such object " ++ Path.join p '.' ++ "\n", root := root,
                     hooks := [] } : CmdRun Color)
        | some child => { completion := .returned 0,
                          output := h.printTree child (Path.join p '.'), root := root,
                          hooks := [] })
      = { completion := .returned h.HERBST_INVALID_ARGUMENT,
          output := "No such object " ++ Path.join p '.' ++ "\n", root := root,
          hooks := [] } := by
    intro p hp; rw [hp]
  have hsome : ∀ {p : List String} {o : Object Color}, root.child p = some o →
      (match root.child p with
        | none => ({ completion := .returned h.HERBST_INVALID_ARGUMENT,
                     output := "No such object " ++ Path.join p '.' ++ "\n", root := root,
                     hooks := [] } : CmdRun Color)
        | some child => { completion := .returned 0,
                          output := h.printTree child (Path.join p '.'), root := root,
                          hooks := [] })
      = { completion := .returned 0, output := h.printTree o (Path.join p '.'),
          root := root, hooks := [] } := by
    intro p o hp; rw [hp]
  simp only [print_object_tree_command, print_object_tree_command_on, hhead]
  refine ⟨?_, ?_, ?_, ?_, ?_⟩
  · cases hc : root.child (trimTrailingEmpty (Path.toVector (input.tail.headD ""))) with
    | none => simp
    | some o => simp [Ne.symm hcode]
  · intro hc
    rw [hnone hc]
  · intro o hc
    rw [hsome hc]
    exact ⟨rfl, rfl⟩
  · intro ht
    have hroot : root.child (trimTrailingEmpty (Path.toVector (input.tail.headD "")))
        = some root := by
      rw [ht]
      rfl
    rw [hsome hroot, ht]
    exact ⟨rfl, rfl⟩
  · cases root.child (trimTrailingEmpty (Path.toVector (input.tail.headD ""))) <;> rfl

/-- C13 on the sample tree: `object_tree a.b..` returns the status 3 and writes the
line `No such object a.b`. -/
theorem C13_object_tree_witness :
    (print_object_tree_command Sample.host Sample.tree ["object_tree", "a.b.."]).completion
      = .returned 3 ∧
    (print_object_tree_command Sample.host Sample.tree ["object_tree", "a.b.."]).output
      = "No such object a.b\n" :=
  ⟨((C13_object_tree Sample.host Sample.tree ["object_tree", "a.b.."] (by decide)).1).2 rfl,
   (C13_object_tree Sample.host Sample.tree ["object_tree", "a.b.."] (by decide)).2.1 rfl⟩

/-- C14 (the code departs from the claim): on the sample tree the path `nosuch`
does not resolve to an object, `ls nosuch` reports that, and yet the command
returns the status 0. -/
theorem C14_ls_unresolved_path_returns_zero :
    (Sample.tree.child (Path.toVector "nosuch")).isSome = false ∧
    (Root.cmd_ls Sample.host Sample.tree ["ls", "nosuch"]).completion = .returned 0 ∧
    (Root.cmd_ls Sample.host Sample.tree ["ls", "nosuch"]).output
      = "No such object nosuch\n" := by
  refine ⟨rfl, rfl, by decide⟩

/-- C15: on a string attribute, for every text `s`: `change(s)` raises nothing
but the call of an empty validator, a non-empty message it returns is what the
validator of the (writable) attribute returned on seeing `s`, and when it
returns the empty message `str()` afterwards is `s`. -/
theorem C15_string_change (a : Attribute_ String) (s : String) :
    (∀ e : Exn, (a.change_string s).result = .thrown e →
      e = .bad_function_call ∧ a.writeable_ = true ∧ a.m_onChange = none) ∧
    (∀ msg : String, msg ≠ "" → (a.change_string s).result = .returned msg →
      a.writeable_ = true ∧ ∃ f, a.m_onChange = some f ∧ f s = msg ∧
        (a.change_string s).validated = [s]) ∧
    ((a.change_string s).result = .returned "" →
      (a.change_string s).self.payload_ = s ∧ (a.change_string s).self.str_string = s) := by
  obtain ⟨n, w, o, m, p⟩ := a
  cases w with
  | false =>
    simp [Attribute_.change_string, Attribute_.assignByUser, Attribute_.str_string]
    intro msg hmsg hm
    exact hmsg hm.symm
  | true =>
    cases m with
    | none => simp [Attribute_.change_string, Attribute_.assignByUser]
    | some f =>
      by_cases hacc : f s = ""
      · simp [Attribute_.change_string, Attribute_.assignByUser, Attribute_.str_string, hacc]
      · simp [Attribute_.change_string, Attribute_.assignByUser, Attribute_.str_string, hacc]

/-- C16 (the claim fails): the integer attribute `border`, holding 5, accepts the
text `12abc` and then holds 12; the unsigned attribute `count`, holding 7,
accepts the text `-1` and then holds 18446744073709551615.  Neither is a parse
failure and neither leaves the stored value unchanged. -/
theorem C16_trailing_text_and_negative_unsigned_accepted :
    (Sample.border.change_int "12abc").result = .returned "" ∧
    (Sample.border.change_int "12abc").self.payload_ = 12 ∧
    Sample.border.payload_ = 5 ∧
    (Sample.count.change_ulong "-1").result = .returned "" ∧
    (Sample.count.change_ulong "-1").self.payload_ = 18446744073709551615 ∧
    Sample.count.payload_ = 7 := by
  decide

/-- C16 as amended: an integer or unsigned attribute accepts a text exactly when,
after optional white space, the text starts with a decimal numeral with
optional sign whose value is an `int`, respectively whose magnitude is at most
`ULONG_MAX`; whatever follows the numeral is ignored.  The value handed to
`assignByUser` is the value of the numeral, for an unsigned attribute negated
modulo `ULONG_MAX + 1` after a minus sign.  Every other text is a parse failure
that leaves the attribute untouched, without a call of the validator and
without notification: `invalid_argument` without a numeral at the start,
`out_of_range` with one that is too large. -/
theorem C16_accepts_iff_numeral_at_start :
    (∀ (a : Attribute_ Int) (text : String) (negative : Bool) (ds : List Char),
      StartsWithNumeral text negative ds →
      INT_MIN ≤ signedValue negative ds → signedValue negative ds ≤ INT_MAX →
      a.change_int text = a.assignByUser (signedValue negative ds)) ∧
    (∀ (a : Attribute_ Int) (text : String) (negative : Bool) (ds : List Char),
      StartsWithNumeral text negative ds →
      (signedValue negative ds < INT_MIN ∨ INT_MAX < signedValue negative ds) →
      a.change_int text
        = { result := .thrown .out_of_range, self := a, validated := [], hooks := [] }) ∧
    (∀ (a : Attribute_ Int) (text : String),
      (¬ ∃ negative ds, StartsWithNumeral text negative ds) →
      a.change_int text
        = { result := .thrown .invalid_argument, self := a, validated := [], hooks := [] }) ∧
    (∀ (a : Attribute_ Int) (text : String),
      (a.change_int text).result ≠ .thrown .invalid_argument →
      (a.change_int text).result ≠ .thrown .out_of_range →
      ∃ negative ds, StartsWithNumeral text negative ds ∧
        INT_MIN ≤ signedValue negative ds ∧ signedValue negative ds ≤ INT_MAX) ∧
    (∀ (a : Attribute_ Nat) (text : String) (negative : Bool) (ds : List Char),
      StartsWithNumeral text negative ds → digitsValue ds ≤ ULONG_MAX →
      a.change_ulong text = a.assignByUser (wrappedValue negative ds)) ∧
    (∀ (a : Attribute_ Nat) (text : String) (negative : Bool) (ds : List Char),
      StartsWithNumeral text negative ds → ULONG_MAX < digitsValue ds →
      a.change_ulong text
        = { result := .thrown .out_of_range, self := a, validated := [], hooks := [] }) ∧
    (∀ (a : Attribute_ Nat) (text : String),
      (¬ ∃ negative ds, StartsWithNumeral text negative ds) →
      a.change_ulong text
        = { result := .thrown .invalid_argument, self := a, validated := [], hooks := [] }) ∧
    (∀ (a : Attribute_ Nat) (text : String),
      (a.change_ulong text).result ≠ .thrown .invalid_argument →
      (a.change_ulong text).result ≠ .thrown .out_of_range →
      ∃ negative ds, StartsWithNumeral text negative ds ∧ digitsValue ds ≤ ULONG_MAX) := by
  have int_ok : ∀ (a : Attribute_ Int) (text : String) (negative : Bool) (ds : List Char),
      StartsWithNumeral text negative ds →
      INT_MIN ≤ signedValue negative ds → signedValue negative ds ≤ INT_MAX →
      a.change_int text = a.assignByUser (signedValue negative ds) := by
    intro a text negative ds h hmin hmax
    have hr : ¬ (signedValue negative ds < INT_MIN ∨ INT_MAX < signedValue negative ds) := by
      rintro (h1 | h1) <;> omega
    have hscan := scanNumber_of_startsWithNumeral text negative ds h
    obtain ⟨_, _, _, _, _, _, hds, _, _⟩ := h
    cases ds with
    | nil => exact absurd rfl hds
    | cons d tl =>
      simp only [signedValue] at hr
      simp only [Attribute_.change_int, stoi, hscan, signedValue, if_neg hr]
  have int_range : ∀ (a : Attribute_ Int) (text : String) (negative : Bool) (ds : List Char),
      StartsWithNumeral text negative ds →
      (signedValue negative ds < INT_MIN ∨ INT_MAX < signedValue negative ds) →
      a.change_int text
        = { result := .thrown .out_of_range, self := a, validated := [], hooks := [] } := by
    intro a text negative ds h hr
    have hscan := scanNumber_of_startsWithNumeral text negative ds h
    obtain ⟨_, _, _, _, _, _, hds, _, _⟩ := h
    cases ds with
    | nil => exact absurd rfl hds
    | cons d tl =>
      simp only [signedValue] at hr
      simp only [Attribute_.change_int, stoi, hscan, if_pos hr]
  have int_none : ∀ (a : Attribute_ Int) (text : String),
      (¬ ∃ negative ds, StartsWithNumeral text negative ds) →
      a.change_int text
        = { result := .thrown .invalid_argument, self := a, validated := [], hooks := [] } := by
    intro a text h
    have hnil := scanNumber_no_numeral text h
    cases hs : scanNumber text with
    | mk negative ds =>
      rw [hs] at hnil
      simp only at hnil
      subst hnil
      simp only [Attribute_.change_int, stoi, hs]
  have ulong_ok : ∀ (a : Attribute_ Nat) (text : String) (negative : Bool) (ds : List Char),
      StartsWithNumeral text negative ds → digitsValue ds ≤ ULONG_MAX →
      a.change_ulong text = a.assignByUser (wrappedValue negative ds) := by
    intro a text negative ds h hmax
    have hscan := scanNumber_of_startsWithNumeral text negative ds h
    obtain ⟨_, _, _, _, _, _, hds, _, _⟩ := h
    cases ds with
    | nil => exact absurd rfl hds
    | cons d tl =>
      simp only [Attribute_.change_ulong, stoul, hscan, wrappedValue, if_neg (not_lt.mpr hmax)]
  have ulong_range : ∀ (a : Attribute_ Nat) (text : String) (negative : Bool)
      (ds : List Char), StartsWithNumeral text negative ds → ULONG_MAX < digitsValue ds →
      a.change_ulong text
        = { result := .thrown .out_of_range, self := a, validated := [], hooks := [] } := by
    intro a text negative ds h hr
    have hscan := scanNumber_of_startsWithNumeral text negative ds h
    obtain ⟨_, _, _, _, _, _, hds, _, _⟩ := h
    cases ds with
    | nil => exact absurd rfl hds
    | cons d tl =>
      simp only [Attribute_.change_ulong, stoul, hscan, if_pos hr]
  have ulong_none : ∀ (a : Attribute_ Nat) (text : String),
      (¬ ∃ negative ds, StartsWithNumeral text negative ds) →
      a.change_ulong text
        = { result := .thrown .invalid_argument, self := a, validated := [], hooks := [] } := by
    intro a text h
    have hnil := scanNumber_no_numeral text h
    cases hs : scanNumber text with
    | mk negative ds =>
      rw [hs] at hnil
      simp only at hnil
      subst hnil
      simp only [Attribute_.change_ulong, stoul, hs]
  refine ⟨int_ok, int_range, int_none, ?_, ulong_ok, ulong_range, ulong_none, ?_⟩
  · intro a text hinv hrange
    by_cases hnum : ∃ negative ds, StartsWithNumeral text negative ds
    · obtain ⟨negative, ds, h⟩ := hnum
      by_cases hr : signedValue negative ds < INT_MIN ∨ INT_MAX < signedValue negative ds
      · exact absurd (by rw [int_range a text negative ds h hr]) hrange
      · exact ⟨negative, ds, h, by omega, by omega⟩
    · exact absurd (by rw [int_none a text hnum]) hinv
  · intro a text hinv hrange
    by_cases hnum : ∃ negative ds, StartsWithNumeral text negative ds
    · obtain ⟨negative, ds, h⟩ := hnum
      by_cases hr : ULONG_MAX < digitsValue ds
      · exact absurd (by rw [ulong_range a text negative ds h hr]) hrange
      · exact ⟨negative, ds, h, by omega⟩
    · exact absurd (by rw [ulong_none a text hnum]) hinv

/-- C16 as amended, on the attribute `border`: the text `12abc` starts with the
numeral `12` and is the external assignment of 12; the text `abc` starts with
no numeral and is a parse failure that leaves the attribute untouched. -/
theorem C16_accepts_iff_numeral_at_start_witness :
    Sample.border.change_int "12abc" = Sample.border.assignByUser 12 ∧
    Sample.border.change_int "abc"
      = { result := .thrown .invalid_argument, self := Sample.border, validated := [],
          hooks := [] } :=
  ⟨C16_accepts_iff_numeral_at_start.1 Sample.border "12abc" false ['1', '2']
      ⟨[], [], ['a', 'b', 'c'], rfl, by simp, Or.inl ⟨rfl, rfl⟩, by decide, by decide,
        by simp; decide⟩
      (by decide) (by decide),
   C16_accepts_iff_numeral_at_start.2.2.1 Sample.border "abc"
      (fun ⟨negative, ds, h⟩ => by
        have hscan := scanNumber_of_startsWithNumeral "abc" negative ds h
        obtain ⟨_, _, _, _, _, _, hds, _, _⟩ := h
        have hnil : (scanNumber "abc").2 = [] := by decide
        rw [hscan] at hnil
        exact hds hnil)⟩

/-- C17: on a writable attribute with validator `f`, holding `v0`, the external
assignment of `v1` invokes the validator exactly once, and the validator sees
the stored value `v1`; the result is exactly what the validator returned; the
stored value afterwards is `v1` if that is the empty message and `v0`
otherwise. -/
theorem C17_write_then_validate {T : Type} (a : Attribute_ T) (f : T → String) (v1 : T)
    (hw : a.writeable_ = true) (hf : a.m_onChange = some f) :
    (a.assignByUser v1).validated = [v1] ∧
    (a.assignByUser v1).result = .returned (f v1) ∧
    (f v1 = "" → (a.assignByUser v1).self.payload_ = v1) ∧
    (f v1 ≠ "" → (a.assignByUser v1).self.payload_ = a.payload_) := by
  rw [Attribute_.assignByUser_writable a v1 f hw hf]
  by_cases hacc : f v1 = ""
  · simp [hacc]
  · simp [hacc]

/-- C17 at the attribute `tags` (holding `1,2,3`) and the empty text: the validator
ran once, on the empty text, its message is the result and `1,2,3` is back. -/
theorem C17_write_then_validate_witness :
    (Sample.tags.assignByUser "").validated = [""] ∧
    (Sample.tags.assignByUser "").result = .returned (Sample.nonEmpty "") ∧
    (Sample.nonEmpty "" = "" → (Sample.tags.assignByUser "").self.payload_ = "") ∧
    (Sample.nonEmpty "" ≠ "" →
      (Sample.tags.assignByUser "").self.payload_ = Sample.tags.payload_) :=
  C17_write_then_validate Sample.tags Sample.nonEmpty "" rfl rfl

/-- C18: `attr` without further argument writes the listing of the root and
returns 0.  `attr <path>` without a value, when the split path resolves to an
object, writes the listing of that object and returns 0; the output is the
listing only, whatever attribute the path may name as well.  In both cases the
tree is the tree from before and nobody is notified. -/
theorem C18_attr_lists_objects_first {Color : Type} (h : Host Color) (root : Object Color)
    (cmd : String) :
    Root.cmd_attr h root [cmd]
      = { completion := .returned 0, output := h.ls root, root := root, hooks := [] } ∧
    (∀ (path : String) (o : Object Color), root.child (Path.split path) = some o →
      Root.cmd_attr h root [cmd, path]
        = { completion := .returned 0, output := h.ls o, root := root, hooks := [] }) := by
  constructor
  · have hsplit : Path.split "" = [] := by decide
    simp [Root.cmd_attr, hsplit]
  · intro path o ho
    simp only [Root.cmd_attr, List.tail, Root.cmd_attr_object, ho]

/-- C18 on the sample tree in which `clients` names both a child and an attribute
of the root: `attr clients` writes the listing of the child. -/
theorem C18_attr_lists_objects_first_witness :
    (Root.getAttribute Sample.shadowed "clients").1.isSome = true ∧
    Root.cmd_attr Sample.host Sample.shadowed ["attr", "clients"]
      = { completion := .returned 0, output := "focus", root := Sample.shadowed,
          hooks := [] } :=
  ⟨rfl, (C18_attr_lists_objects_first Sample.host Sample.shadowed "attr").2 "clients"
    (.mk [("focus", .mk [] [])] []) rfl⟩

/-- C20: on a writable attribute whose validator accepts the stored value,
`change(str())` returns the empty message and leaves the attribute as it was
(so the stored value and `str()` are the same as before), for an integer
attribute holding an `int`, an unsigned attribute holding an `unsigned long`, a
boolean attribute and a string attribute. -/
theorem C20_change_of_str :
    (∀ (a : Attribute_ Int) (f : Int → String), a.writeable_ = true → a.m_onChange = some f →
      f a.payload_ = "" → INT_MIN ≤ a.payload_ → a.payload_ ≤ INT_MAX →
      (a.change_int a.str_int).result = .returned "" ∧ (a.change_int a.str_int).self = a) ∧
    (∀ (a : Attribute_ Nat) (f : Nat → String), a.writeable_ = true → a.m_onChange = some f →
      f a.payload_ = "" → a.payload_ ≤ ULONG_MAX →
      (a.change_ulong a.str_ulong).result = .returned "" ∧
      (a.change_ulong a.str_ulong).self = a) ∧
    (∀ (a : Attribute_ Bool) (f : Bool → String), a.writeable_ = true → a.m_onChange = some f →
      f a.payload_ = "" →
      (a.change_bool a.str_bool).result = .returned "" ∧
      (a.change_bool a.str_bool).self = a) ∧
    (∀ (a : Attribute_ String) (f : String → String), a.writeable_ = true →
      a.m_onChange = some f → f a.payload_ = "" →
      (a.change_string a.str_string).result = .returned "" ∧
      (a.change_string a.str_string).self = a) := by
  have key : ∀ {T : Type} (a : Attribute_ T) (f : T → String), a.writeable_ = true →
      a.m_onChange = some f → f a.payload_ = "" →
      (a.assignByUser a.payload_).result = .returned "" ∧
      (a.assignByUser a.payload_).self = a := by
    intro T a f hw hf hacc
    rw [Attribute_.assignByUser_writable a a.payload_ f hw hf, if_pos hacc]
    exact ⟨rfl, rfl⟩
  refine ⟨?_, ?_, ?_, ?_⟩
  · intro a f hw hf hacc hmin hmax
    simp only [Attribute_.change_int, Attribute_.str_int, stoi_to_string_int _ hmin hmax]
    exact key a f hw hf hacc
  · intro a f hw hf hacc hmax
    simp only [Attribute_.change_ulong, Attribute_.str_ulong, stoul_to_string_ulong _ hmax]
    exact key a f hw hf hacc
  · intro a f hw hf hacc
    have h := key a f hw hf hacc
    cases hp : a.payload_ with
    | false =>
      rw [hp] at h
      simpa [Attribute_.change_bool, Attribute_.str_bool, hp] using h
    | true =>
      rw [hp] at h
      have h1 : ¬ (("true" : String) = "off" ∨ ("true" : String) = "false") := by decide
      simpa [Attribute_.change_bool, Attribute_.str_bool, hp, h1] using h
  · intro a f hw hf hacc
    exact key a f hw hf hacc

/-- C20 at the integer attribute `border`, which holds 5: `change("5")` returns the
empty message and leaves the attribute as it was. -/
theorem C20_change_of_str_witness :
    (Sample.border.change_int Sample.border.str_int).result = .returned "" ∧
    (Sample.border.change_int Sample.border.str_int).self = Sample.border :=
  C20_change_of_str.1 Sample.border Sample.anything rfl rfl rfl (by decide) (by decide)

end herbstluft
